import Mathlib

/-!
Shallow embedding of the codex usage-analytics ingestion engine
(`src-tauri/src/core/codex_analytics.rs` together with the persistence
operations it uses from `src-tauri/src/core/skill_store.rs`).

Files are modelled as lists of lines; a line that cannot be read (invalid
UTF-8 in the original) is `none`, a file that cannot be opened is `none`
at the file level.  The SQLite store is modelled as in-memory lists with
the same observable operations (unique key `(tool, log_path, log_line)`
enforced by `insert_skill_usage_event`, upsert semantics for cursors).
-/

set_option maxHeartbeats 1000000
set_option maxRecDepth 100000

/-! ## Basic string helpers (models of the Rust std string operations used) -/

/-- The apostrophe character, written via its code point. -/
def quoteChar2 : Char := Char.ofNat 39

/-- Model of the char set `['"', '\x27']` used by `trim_matches` in
`extract_skill_key_from_command` and `canonicalize_codex_skill_key`. -/
def isQuoteChar (c : Char) : Bool := c = '"' || c = quoteChar2

/-- Model of Rust `str::trim_matches(['"', '\x27'])`: strip those characters
from both ends. -/
def trimQuoteChars (s : String) : String :=
  String.mk (((s.data.dropWhile isQuoteChar).reverse.dropWhile isQuoteChar).reverse)

/-- Rust `char::is_whitespace` (the Unicode White_Space property). -/
def isRustWhitespace (c : Char) : Bool :=
  (0x9 ≤ c.val && c.val ≤ 0xd) || c.val = 0x20 || c.val = 0x85 || c.val = 0xa0 ||
  c.val = 0x1680 || (0x2000 ≤ c.val && c.val ≤ 0x200a) || c.val = 0x2028 ||
  c.val = 0x2029 || c.val = 0x202f || c.val = 0x205f || c.val = 0x3000

/-- Split a character list at every separator character (separators are
dropped, empty pieces are kept), with an accumulator for the current piece. -/
def splitCharsAux (sep : Char → Bool) : List Char → List Char → List (List Char)
  | [], acc => [acc.reverse]
  | c :: rest, acc =>
    if sep c then acc.reverse :: splitCharsAux sep rest []
    else splitCharsAux sep rest (c :: acc)

/-- Split a character list at every separator character. -/
def splitChars (sep : Char → Bool) (cs : List Char) : List (List Char) :=
  splitCharsAux sep cs []

/-- Model of Rust `str::split_whitespace`: split on Unicode whitespace,
dropping empty substrings. -/
def splitWhitespaceRust (s : String) : List String :=
  ((splitChars isRustWhitespace s.data).map String.mk).filter (fun t => t ≠ "")

/-- Character-level string prefix test (Rust `str::starts_with`). -/
def listIsPrefixOf : List Char → List Char → Bool
  | [], _ => true
  | _ :: _, [] => false
  | p :: pre, c :: s => if c = p then listIsPrefixOf pre s else false

/-- Model of Rust `str::strip_prefix(pre).unwrap_or(s)`:
remove the prefix when present, otherwise return the string unchanged. -/
def stripPrefixOr (s pre : String) : String :=
  if listIsPrefixOf pre.data s.data then String.mk (s.data.drop pre.data.length) else s

/-- Model of Rust `str::strip_prefix` returning `Option`. -/
def stripPrefixOpt (s pre : String) : Option String :=
  if listIsPrefixOf pre.data s.data then some (String.mk (s.data.drop pre.data.length))
  else none

/-- ASCII lower-casing of one character (the skill names this is applied to
are ASCII; Rust`s `str::to_lowercase` coincides on them). -/
def charToLowerAscii (c : Char) : Char :=
  if 65 ≤ c.toNat ∧ c.toNat ≤ 90 then Char.ofNat (c.toNat + 32) else c

/-- Lower-casing of a string, applied to skill names and lookup keys. -/
def strToLower (s : String) : String := String.mk (s.data.map charToLowerAscii)

/-- Model of Rust `str::trim`: strip Unicode whitespace from both ends. -/
def strTrim (s : String) : String :=
  String.mk (((s.data.dropWhile isRustWhitespace).reverse.dropWhile
    isRustWhitespace).reverse)

/-- Insert into a `≤`-sorted list of strings. -/
def insertSorted (a : String) : List String → List String
  | [] => [a]
  | b :: rest => if a ≤ b then a :: b :: rest else b :: insertSorted a rest

/-- Sort a list of strings (models `Vec::sort` on paths: same sorted result). -/
def sortStrings : List String → List String
  | [] => []
  | a :: rest => insertSorted a (sortStrings rest)

/-! ## `extract_skill_key_from_command` (codex_analytics.rs lines 23-32) -/

/-- Loop of `extract_skill_key_from_command`: find the first `use-skill`
token; the next token (quote-trimmed) is the raw skill key; a trailing
`use-skill` with no following token yields `none`. -/
def extractGo : List String → Option String
  | [] => none
  | t :: rest =>
    if t = "use-skill" then
      match rest with
      | [] => none
      | s :: _ => some (trimQuoteChars s)
    else extractGo rest

/-- Model of `extract_skill_key_from_command`. -/
def extract_skill_key_from_command (command : String) : Option String :=
  extractGo (splitWhitespaceRust command)

/-! ## JSON values and a parser (model of `serde_json::from_str`) -/

/-- JSON values.  Number lexemes are kept as raw text: the analytics code
never reads a numeric field, it only needs to skip them. -/
inductive Json where
  | null : Json
  | jbool : Bool → Json
  | num : String → Json
  | str : String → Json
  | arr : List Json → Json
  | obj : List (String × Json) → Json

/-- JSON insignificant whitespace. -/
def isJsonWs (c : Char) : Bool :=
  c = ' ' || c = '\t' || c = '\n' || c = '\r'

/-- Skip JSON whitespace. -/
def skipWs (cs : List Char) : List Char := cs.dropWhile isJsonWs

/-- Decode one `\uXXXX` hex digit. -/
def hexVal (c : Char) : Option Nat :=
  if '0' ≤ c ∧ c ≤ '9' then some (c.toNat - '0'.toNat)
  else if 'a' ≤ c ∧ c ≤ 'f' then some (c.toNat - 'a'.toNat + 10)
  else if 'A' ≤ c ∧ c ≤ 'F' then some (c.toNat - 'A'.toNat + 10)
  else none

/-- Decode four hex digits. -/
def hex4 : List Char → Option (Nat × List Char)
  | a :: b :: c :: d :: rest => do
    let va ← hexVal a
    let vb ← hexVal b
    let vc ← hexVal c
    let vd ← hexVal d
    some (((va * 16 + vb) * 16 + vc) * 16 + vd, rest)
  | _ => none

/-- Decode a single-character escape (everything except `\u`). -/
def simpleEscape (e : Char) : Option Char :=
  if e = '"' then some '"'
  else if e = '\\' then some '\\'
  else if e = '/' then some '/'
  else if e = 'b' then some (Char.ofNat 8)
  else if e = 'f' then some (Char.ofNat 12)
  else if e = 'n' then some '\n'
  else if e = 'r' then some '\r'
  else if e = 't' then some '\t'
  else none

/-- Parse the body of a JSON string (the opening quote already consumed),
returning the decoded characters and the rest of the input.  Handles the
escapes accepted by serde_json, including surrogate pairs. -/
def parseJsonStringChars : List Char → Option (List Char × List Char)
  | [] => none
  | '"' :: rest => some ([], rest)
  | '\\' :: 'u' :: a :: b :: c :: d :: rest =>
    (match hex4 [a, b, c, d] with
     | none => none
     | some (n, _) =>
       if 0xd800 ≤ n ∧ n ≤ 0xdbff then
         -- high surrogate: must be followed by an escaped low surrogate
         match rest with
         | '\\' :: 'u' :: a2 :: b2 :: c2 :: d2 :: rest2 =>
           (match hex4 [a2, b2, c2, d2] with
            | none => none
            | some (m, _) =>
              if 0xdc00 ≤ m ∧ m ≤ 0xdfff then
                match parseJsonStringChars rest2 with
                | none => none
                | some (cs, r) =>
                  some (Char.ofNat (0x10000 + (n - 0xd800) * 0x400 + (m - 0xdc00)) :: cs, r)
              else none)
         | _ => none
       else if 0xdc00 ≤ n ∧ n ≤ 0xdfff then none  -- unpaired low surrogate
       else
         match parseJsonStringChars rest with
         | none => none
         | some (cs, r) => some (Char.ofNat n :: cs, r))
  | '\\' :: e :: rest =>
    (match simpleEscape e with
     | none => none
     | some c =>
       match parseJsonStringChars rest with
       | none => none
       | some (cs, r) => some (c :: cs, r))
  | c :: rest =>
    if c.val < 0x20 then none
    else
      match parseJsonStringChars rest with
      | none => none
      | some (cs, r) => some (c :: cs, r)

/-- Parse a JSON string after its opening quote. -/
def parseJsonString (cs : List Char) : Option (String × List Char) :=
  (parseJsonStringChars cs).map (fun p => (String.mk p.1, p.2))

/-- Parse the digits part of a number (one or more). -/
def takeDigits (cs : List Char) : List Char × List Char :=
  (cs.takeWhile Char.isDigit, cs.dropWhile Char.isDigit)

/-- Parse an optional fraction part: `.` must be followed by at least one
digit; when the input does not start with `.` there is no fraction. -/
def parseFracPart : List Char → Option (List Char × List Char)
  | '.' :: r =>
    let p := takeDigits r
    if p.1 = [] then none else some ('.' :: p.1, p.2)
  | cs => some ([], cs)

/-- Parse an optional exponent part: `e`/`E`, optional sign, at least one
digit. -/
def parseExpPart : List Char → Option (List Char × List Char)
  | e :: r =>
    if e = 'e' ∨ e = 'E' then
      let q := match r with
        | s :: r2 => if s = '+' ∨ s = '-' then ([s], r2) else (([] : List Char), s :: r2)
        | [] => ([], ([] : List Char))
      let p := takeDigits q.2
      if p.1 = [] then none else some (e :: (q.1 ++ p.1), p.2)
    else some ([], e :: r)
  | [] => some ([], [])

/-- Parse a JSON number lexeme (serde_json grammar: optional minus, integer
part without leading zeros, optional fraction, optional exponent). -/
def parseJsonNumber (cs : List Char) : Option (String × List Char) :=
  let p0 := match cs with
    | '-' :: r => (['-'], r)
    | _ => (([] : List Char), cs)
  match p0.2 with
  | [] => none
  | d :: _ =>
    if ¬ d.isDigit then none
    else
      let p1 := takeDigits p0.2
      if p1.1.length > 1 ∧ d = '0' then none
      else
        match parseFracPart p1.2 with
        | none => none
        | some (fr, cs3) =>
          match parseExpPart cs3 with
          | none => none
          | some (ex, cs4) => some (String.mk (p0.1 ++ p1.1 ++ fr ++ ex), cs4)

mutual

/-- Parse one JSON value (fuel-based recursive descent). -/
def parseJsonValue : Nat → List Char → Option (Json × List Char)
  | 0, _ => none
  | fuel + 1, cs =>
    match skipWs cs with
    | 'n' :: 'u' :: 'l' :: 'l' :: rest => some (.null, rest)
    | 't' :: 'r' :: 'u' :: 'e' :: rest => some (.jbool true, rest)
    | 'f' :: 'a' :: 'l' :: 's' :: 'e' :: rest => some (.jbool false, rest)
    | '"' :: rest => (parseJsonString rest).map (fun p => (.str p.1, p.2))
    | '[' :: rest =>
      (match skipWs rest with
       | ']' :: r => some (.arr [], r)
       | r => (parseJsonElems fuel r).map (fun p => (.arr p.1, p.2)))
    | '\x7b' :: rest =>
      (match skipWs rest with
       | '\x7d' :: r => some (.obj [], r)
       | r => (parseJsonMembers fuel r).map (fun p => (.obj p.1, p.2)))
    | c :: rest =>
      if c = '-' ∨ c.isDigit then (parseJsonNumber (c :: rest)).map (fun p => (.num p.1, p.2))
      else none
    | [] => none

/-- Parse one or more comma-separated array elements followed by a closing
bracket. -/
def parseJsonElems : Nat → List Char → Option (List Json × List Char)
  | 0, _ => none
  | fuel + 1, cs =>
    match parseJsonValue fuel cs with
    | none => none
    | some (v, rest) =>
      match skipWs rest with
      | ',' :: r =>
        (match parseJsonElems fuel r with
         | none => none
         | some (vs, r1) => some (v :: vs, r1))
      | ']' :: r => some ([v], r)
      | _ => none

/-- Parse one or more comma-separated object members followed by a closing
brace. -/
def parseJsonMembers : Nat → List Char → Option (List (String × Json) × List Char)
  | 0, _ => none
  | fuel + 1, cs =>
    match skipWs cs with
    | '"' :: rest =>
      (match parseJsonString rest with
       | none => none
       | some (k, r1) =>
         match skipWs r1 with
         | ':' :: r2 =>
           (match parseJsonValue fuel r2 with
            | none => none
            | some (v, r3) =>
              match skipWs r3 with
              | ',' :: r4 =>
                (match parseJsonMembers fuel r4 with
                 | none => none
                 | some (ms, r5) => some ((k, v) :: ms, r5))
              | '\x7d' :: r4 => some ([(k, v)], r4)
              | _ => none)
         | _ => none)
    | _ => none

end

/-- Model of `serde_json::from_str` to a `serde_json::Value`: parse a whole
string as one JSON value with only whitespace around it. -/
def parseJson (s : String) : Option Json :=
  match parseJsonValue (s.length + 1) s.data with
  | some (j, rest) => if skipWs rest = [] then some j else none
  | none => none

/-! ## serde decoders for the `#[derive(Deserialize)]` structs -/

/-- `RolloutPayload` (codex_analytics.rs lines 45-51); `type` is renamed to
`kind` exactly as the Rust struct does. -/
structure RolloutPayload where
  kind : String
  name : Option String
  arguments : Option String

/-- `RolloutLine` (codex_analytics.rs lines 39-43). -/
structure RolloutLine where
  timestamp : Option String
  payload : Option RolloutPayload

/-- `ShellCommandArgs` (codex_analytics.rs lines 53-57). -/
structure ShellCommandArgs where
  command : Option String
  workdir : Option String

/-- First binding of a field in a JSON object. -/
def lookupField (fields : List (String × Json)) (k : String) : Option Json :=
  (fields.find? (fun f => f.1 == k)).map (fun f => f.2)

/-- serde decoding of an `Option<String>` field: absent or `null` is `None`,
a string is `Some`, any other value is a deserialization error. -/
def decodeOptString : Option Json → Option (Option String)
  | none => some none
  | some .null => some none
  | some (.str s) => some (some s)
  | some _ => none

/-- serde decoding of a required `String` field. -/
def decodeReqString : Option Json → Option String
  | some (.str s) => some s
  | _ => none

/-- serde decoding of `RolloutPayload` from a JSON value. -/
def decodeRolloutPayload : Json → Option RolloutPayload
  | .obj fs =>
    (match decodeReqString (lookupField fs "type") with
     | none => none
     | some kind =>
       match decodeOptString (lookupField fs "name") with
       | none => none
       | some name =>
         match decodeOptString (lookupField fs "arguments") with
         | none => none
         | some arguments => some { kind := kind, name := name, arguments := arguments })
  | _ => none

/-- serde decoding of the `payload` field (`Option<RolloutPayload>`). -/
def decodeOptPayload : Option Json → Option (Option RolloutPayload)
  | none => some none
  | some .null => some none
  | some j => (decodeRolloutPayload j).map some

/-- serde decoding of `RolloutLine` from a JSON value. -/
def decodeRolloutLine : Json → Option RolloutLine
  | .obj fs =>
    (match decodeOptString (lookupField fs "timestamp") with
     | none => none
     | some timestamp =>
       match decodeOptPayload (lookupField fs "payload") with
       | none => none
       | some payload => some { timestamp := timestamp, payload := payload })
  | _ => none

/-- serde decoding of `ShellCommandArgs` from a JSON value. -/
def decodeShellCommandArgs : Json → Option ShellCommandArgs
  | .obj fs =>
    (match decodeOptString (lookupField fs "command") with
     | none => none
     | some command =>
       match decodeOptString (lookupField fs "workdir") with
       | none => none
       | some workdir => some { command := command, workdir := workdir })
  | _ => none

/-! ## `parse_timestamp_ms` (codex_analytics.rs lines 34-37)

Model of `OffsetDateTime::parse(timestamp, &Rfc3339)` followed by
`dt.unix_timestamp() * 1000 + i64::from(dt.millisecond())`. -/

/-- Days from the Unix epoch for a civil date (proleptic Gregorian).  All
intermediate divisions are on non-negative values. -/
def daysFromCivil (y m d : Int) : Int :=
  let y1 := (if m ≤ 2 then y - 1 else y) + 400
  let era := y1 / 400
  let yoe := y1 - era * 400
  let mp := if m > 2 then m - 3 else m + 9
  let doy := (153 * mp + 2) / 5 + d - 1
  let doe := yoe * 365 + yoe / 4 - yoe / 100 + doy
  era * 146097 + doe - 719468 - 146097

/-- Days in a month of the proleptic Gregorian calendar. -/
def daysInMonth (y m : Int) : Int :=
  if m = 2 then
    if y % 4 = 0 ∧ (y % 100 ≠ 0 ∨ y % 400 = 0) then 29 else 28
  else if m = 4 ∨ m = 6 ∨ m = 9 ∨ m = 11 then 30
  else 31

/-- Read exactly two decimal digits. -/
def read2 : List Char → Option (Nat × List Char)
  | a :: b :: rest =>
    if a.isDigit ∧ b.isDigit then
      some ((a.toNat - '0'.toNat) * 10 + (b.toNat - '0'.toNat), rest)
    else none
  | _ => none

/-- Read exactly four decimal digits. -/
def read4 : List Char → Option (Nat × List Char)
  | a :: b :: c :: d :: rest =>
    if a.isDigit ∧ b.isDigit ∧ c.isDigit ∧ d.isDigit then
      some ((((a.toNat - '0'.toNat) * 10 + (b.toNat - '0'.toNat)) * 10 +
             (c.toNat - '0'.toNat)) * 10 + (d.toNat - '0'.toNat), rest)
    else none
  | _ => none

/-- Expect one specific character. -/
def expectChar (c : Char) : List Char → Option (List Char)
  | x :: rest => if x = c then some rest else none
  | [] => none

/-- Parse the optional fractional-seconds part (`.` plus 1 to 9 digits),
returning nanoseconds. -/
def parseFractionNanos : List Char → Option (Nat × List Char)
  | '.' :: r =>
    let ds := r.takeWhile Char.isDigit
    if ds.length < 1 ∨ ds.length > 9 then none
    else
      let v := ds.foldl (fun acc c => acc * 10 + (c.toNat - '0'.toNat)) 0
      some (v * 10 ^ (9 - ds.length), r.drop ds.length)
  | cs => some (0, cs)

/-- Parse the UTC offset: `Z`/`z`, or a sign followed by `hh:mm`; returns the
offset in seconds. -/
def parseUtcOffset : List Char → Option (Int × List Char)
  | 'Z' :: rest => some (0, rest)
  | 'z' :: rest => some (0, rest)
  | s :: rest =>
    if s = '+' ∨ s = '-' then
      match read2 rest with
      | none => none
      | some (oh, r1) =>
        match expectChar ':' r1 with
        | none => none
        | some r2 =>
          match read2 r2 with
          | none => none
          | some (om, r3) =>
            if oh ≤ 23 ∧ om ≤ 59 then
              let secs : Int := oh * 3600 + om * 60
              some (if s = '-' then -secs else secs, r3)
            else none
    else none
  | [] => none

/-- Model of `parse_timestamp_ms`: RFC 3339 parsing (as accepted by the
`time` crate`s well-known format: 4-digit year, `T`/`t` separator, optional
fraction, `Z`/`z` or signed offset), then
`unix_timestamp() * 1000 + millisecond()`. -/
def parse_timestamp_ms (timestamp : String) : Option Int :=
  match read4 timestamp.data with
  | none => none
  | some (y, r1) =>
    match expectChar '-' r1 with
    | none => none
    | some r2 =>
      match read2 r2 with
      | none => none
      | some (mo, r3) =>
        match expectChar '-' r3 with
        | none => none
        | some r4 =>
          match read2 r4 with
          | none => none
          | some (d, r5) =>
            match r5 with
            | t :: r6 =>
              if t = 'T' ∨ t = 't' then
                match read2 r6 with
                | none => none
                | some (h, r7) =>
                  match expectChar ':' r7 with
                  | none => none
                  | some r8 =>
                    match read2 r8 with
                    | none => none
                    | some (mi, r9) =>
                      match expectChar ':' r9 with
                      | none => none
                      | some r10 =>
                        match read2 r10 with
                        | none => none
                        | some (s, r11) =>
                          match parseFractionNanos r11 with
                          | none => none
                          | some (nanos, r12) =>
                            match parseUtcOffset r12 with
                            | none => none
                            | some (off, r13) =>
                              if r13 = [] ∧ 1 ≤ (mo : Int) ∧ (mo : Int) ≤ 12 ∧
                                 1 ≤ (d : Int) ∧ (d : Int) ≤ daysInMonth y mo ∧
                                 h ≤ 23 ∧ mi ≤ 59 ∧ s ≤ 59 then
                                let secs : Int :=
                                  daysFromCivil y mo d * 86400 +
                                  (h : Int) * 3600 + (mi : Int) * 60 + (s : Int) - off
                                some (secs * 1000 + (nanos / 1000000 : Nat))
                              else none
              else none
            | [] => none

/-! ## `CodexUseSkillEvent` and `parse_rollout_line_for_use_skill`
(codex_analytics.rs lines 16-21 and 59-84) -/

/-- `CodexUseSkillEvent`: the transient parsed event. -/
structure CodexUseSkillEvent where
  ts_ms : Int
  skill_key : String
  workdir : String
deriving Repr, DecidableEq

/-- Model of `parse_rollout_line_for_use_skill`.  Each `bind` is a `?` in the
Rust; any structural deviation yields `none`. -/
def parse_rollout_line_for_use_skill (line : String) : Option CodexUseSkillEvent :=
  (parseJson line).bind fun j =>
  (decodeRolloutLine j).bind fun parsed =>
  parsed.payload.bind fun payload =>
  if payload.kind ≠ "function_call" then none else
  payload.name.bind fun nm =>
  if nm ≠ "shell_command" then none else
  payload.arguments.bind fun args_raw =>
  (parseJson args_raw).bind fun argsJ =>
  (decodeShellCommandArgs argsJ).bind fun args =>
  args.command.bind fun command =>
  (extract_skill_key_from_command command).bind fun skill_key =>
  args.workdir.bind fun workdir =>
  some { ts_ms := (parsed.timestamp.bind parse_timestamp_ms).getD 0, skill_key, workdir }

/-! ## Path safety and skill-key canonicalization
(codex_analytics.rs lines 279-325) -/

/-- Model of `is_safe_relative_path` for Unix path semantics: an absolute
path starts with `/` (its components then include `RootDir`), and a
`ParentDir` component is a `..` segment.  `Prefix` components do not occur
on Unix. -/
def is_safe_relative_path (path : String) : Bool :=
  if listIsPrefixOf "/".data path.data then false
  else (splitChars (fun c => c = '/') path.data).all (fun c => c ≠ "..".data)

/-- `is_safe_relative_skill_key` (codex_analytics.rs lines 305-307). -/
def is_safe_relative_skill_key (skill_key : String) : Bool :=
  is_safe_relative_path skill_key

/-- Model of `canonicalize_codex_skill_key`.  The skills directory is
modelled by the list of relative paths `p` for which `skills_dir.join(p)`
exists on disk. -/
def canonicalize_codex_skill_key (skillsFs : List String) (raw_skill_key : String) :
    Option String :=
  let raw := trimQuoteChars raw_skill_key
  let raw := stripPrefixOr raw "skills/"
  if is_safe_relative_skill_key raw && skillsFs.contains raw then some raw
  else
    match stripPrefixOpt raw "superpowers:" with
    | none => none
    | some rest =>
      let rest := stripPrefixOr rest "skills/"
      if is_safe_relative_skill_key rest && skillsFs.contains rest then some rest
      else none

/-- Modelled from the spec`s ordered canonicalization rules (&sect;4.3), as a
reference for the refinement claim C6: strip surrounding quote characters and
a leading `skills/` segment; accept a traversal-safe existing key as-is; else
accept the traversal-safe existing remainder of a `superpowers:` form
(optionally with a leading `skills/` after the colon); else nothing. -/
def canonicalize_codex_skill_key_specModel (skillsFs : List String)
    (raw_skill_key : String) : Option String :=
  let k := stripPrefixOr (trimQuoteChars raw_skill_key) "skills/"
  if is_safe_relative_skill_key k && skillsFs.contains k then some k
  else
    match stripPrefixOpt k "superpowers:" with
    | none => none
    | some rest =>
      let rest := stripPrefixOr rest "skills/"
      if is_safe_relative_skill_key rest && skillsFs.contains rest then some rest
      else none

/-! ## The persistence collaborator (`skill_store.rs`)

Modelled as in-memory lists with the observable behaviour of the SQLite
operations the analytics engine uses.  The generated UUID `id` column is
not modelled: it is never read by any analytics operation and plays no
role in the dedup key `UNIQUE(tool, log_path, log_line)`. -/

/-- One persisted row of `skill_usage_events`. -/
structure StoredEvent where
  tool : String
  skill_key : String
  managed_skill_id : Option String
  ts_ms : Int
  workdir : String
  project_path : String
  log_path : String
  log_line : Int
  created_at_ms : Int
deriving Repr, DecidableEq

/-- The store: usage events, scan cursors
(`codex_scan_cursors(log_path PRIMARY KEY, last_line, updated_at_ms)`), and
the managed-skill rows exposed by `list_skills` (name and id only: the two
fields `scan_codex_rollout_logs` reads). -/
structure SkillStore where
  events : List StoredEvent
  cursors : List (String × Int × Int)
  skills : List (String × String)
deriving Repr, DecidableEq

/-- `get_codex_scan_cursor_last_line` (skill_store.rs lines 724-731). -/
def get_codex_scan_cursor_last_line (s : SkillStore) (log_path : String) : Option Int :=
  (s.cursors.find? (fun c => c.1 == log_path)).map (fun c => c.2.1)

/-- `upsert_codex_scan_cursor` (skill_store.rs lines 733-750):
`INSERT ... ON CONFLICT(log_path) DO UPDATE`. -/
def upsert_codex_scan_cursor (s : SkillStore) (log_path : String) (last_line : Int)
    (updated_at_ms : Int) : SkillStore :=
  let replaced := s.cursors.map
    (fun c => if c.1 == log_path then (log_path, last_line, updated_at_ms) else c)
  if s.cursors.any (fun c => c.1 == log_path) then { s with cursors := replaced }
  else { s with cursors := s.cursors ++ [(log_path, last_line, updated_at_ms)] }

/-- The dedup key of `skill_usage_events`: `UNIQUE(tool, log_path, log_line)`. -/
def eventKeyMatches (e : StoredEvent) (tool log_path : String) (log_line : Int) : Bool :=
  e.tool == tool && e.log_path == log_path && e.log_line == log_line

/-- `insert_skill_usage_event` (skill_store.rs lines 752-787):
`INSERT OR IGNORE`, returning `true` iff a row was inserted. -/
def insert_skill_usage_event (s : SkillStore) (tool skill_key : String)
    (managed_skill_id : Option String) (ts_ms : Int) (workdir project_path log_path : String)
    (log_line : Int) (created_at_ms : Int) : SkillStore × Bool :=
  if s.events.any (fun e => eventKeyMatches e tool log_path log_line) then (s, false)
  else
    ({ s with events := s.events ++
        [{ tool := tool, skill_key := skill_key, managed_skill_id := managed_skill_id,
           ts_ms := ts_ms, workdir := workdir, project_path := project_path,
           log_path := log_path, log_line := log_line, created_at_ms := created_at_ms }] },
     true)

/-- `delete_skill_usage_events_before` (skill_store.rs lines 789-801):
`DELETE ... WHERE tool = ? AND ts_ms < ?`, returning the deleted row count. -/
def delete_skill_usage_events_before (s : SkillStore) (tool : String) (ts_ms_exclusive : Int) :
    SkillStore × Nat :=
  let hit := fun (e : StoredEvent) => e.tool == tool && decide (e.ts_ms < ts_ms_exclusive)
  ({ s with events := s.events.filter (fun e => ! hit e) },
   (s.events.filter hit).length)

/-- `delete_skill_usage_events_for_tool` (skill_store.rs lines 803-811). -/
def delete_skill_usage_events_for_tool (s : SkillStore) (tool : String) : SkillStore × Nat :=
  ({ s with events := s.events.filter (fun e => ! (e.tool == tool)) },
   (s.events.filter (fun e => e.tool == tool)).length)

/-- `clear_codex_scan_cursors`: `DELETE FROM codex_scan_cursors`. -/
def clear_codex_scan_cursors (s : SkillStore) : SkillStore :=
  { s with cursors := [] }

/-! ## Scan orchestration (`codex_analytics.rs` lines 86-218) -/

/-- `ProjectMode` (codex_analytics.rs lines 86-90). -/
inductive ProjectMode where
  | GitRootOrWorkdir : ProjectMode
  | Workdir : ProjectMode
deriving Repr, DecidableEq

/-- Aggregate scan statistics, `CodexScanStats`
(codex_analytics.rs lines 100-109). -/
structure CodexScanStats where
  scanned_files : Nat := 0
  processed_lines : Nat := 0
  new_events : Nat := 0
  parse_errors : Nat := 0
  matched_use_skill : Nat := 0
  skipped_skill_not_found : Nat := 0
  duplicate_events : Nat := 0
deriving Repr, DecidableEq

/-- Componentwise sum of scan statistics (the Rust code increments one
mutable `stats` value; per-file deltas are summed). -/
def addStats (a b : CodexScanStats) : CodexScanStats :=
  { scanned_files := a.scanned_files + b.scanned_files,
    processed_lines := a.processed_lines + b.processed_lines,
    new_events := a.new_events + b.new_events,
    parse_errors := a.parse_errors + b.parse_errors,
    matched_use_skill := a.matched_use_skill + b.matched_use_skill,
    skipped_skill_not_found := a.skipped_skill_not_found + b.skipped_skill_not_found,
    duplicate_events := a.duplicate_events + b.duplicate_events }

/-- The environment of a scan: `CodexScanOptions` together with the parts of
the outside world the scan reads.  `files p` is the content of the log file
at path `p` (`none` if the file cannot be opened; a `none` line is one whose
read fails, e.g. invalid UTF-8).  `skillsFs` is the set of relative paths
that exist under `opts.skills_dir`.  `gitRoot` models the project-path
resolution performed by `normalize_project_path` via `git2::Repository::discover`. -/
structure ScanEnv where
  files : String → Option (List (Option String))
  skillsFs : List String
  now_ms : Int
  projectMode : ProjectMode
  gitRoot : String → String

/-- `normalize_project_path` (codex_analytics.rs lines 367-382), with the
git discovery itself supplied by the environment. -/
def normalize_project_path (env : ScanEnv) (workdir : String) : String :=
  env.gitRoot workdir

/-- The `skill_key_to_id` map built at the top of `scan_codex_rollout_logs`
(lines 126-129): lowercased skill name to id; later rows overwrite earlier
ones, as with `HashMap::insert`. -/
def build_skill_key_to_id (skills : List (String × String)) : List (String × String) :=
  skills.foldl (fun m ni => (strToLower ni.1, ni.2) :: m) []

/-- The body of the per-line loop of `scan_codex_rollout_logs` after the
cursor skip and the `processed_lines` increment (lines 157-206): read error,
parse, canonicalize, resolve, idempotent insert. -/
def processLine (env : ScanEnv) (skillMap : List (String × String)) (log_path : String)
    (line_no : Int) (l : Option String) (store : SkillStore) (st : CodexScanStats) :
    SkillStore × CodexScanStats :=
  match l with
  | none => (store, { st with parse_errors := st.parse_errors + 1 })
  | some lstr =>
    match parse_rollout_line_for_use_skill lstr with
    | none => (store, st)
    | some ev =>
      let st := { st with matched_use_skill := st.matched_use_skill + 1 }
      match canonicalize_codex_skill_key env.skillsFs ev.skill_key with
      | none =>
        -- Only count skills that exist under the skills dir (after normalization).
        (store, { st with skipped_skill_not_found := st.skipped_skill_not_found + 1 })
      | some skill_key =>
        let managed_skill_id := skillMap.lookup (strToLower skill_key)
        let ts_ms := if ev.ts_ms > 0 then ev.ts_ms else env.now_ms
        let project_path :=
          match env.projectMode with
          | .Workdir => ev.workdir
          | .GitRootOrWorkdir => normalize_project_path env ev.workdir
        let r := insert_skill_usage_event store "codex" skill_key managed_skill_id ts_ms
          ev.workdir project_path log_path line_no env.now_ms
        (r.1,
         if r.2 then { st with new_events := st.new_events + 1 }
         else { st with duplicate_events := st.duplicate_events + 1 })

/-- The line loop of `scan_codex_rollout_logs` (lines 149-207): 1-based line
numbers, skip lines at or below the cursor, track the maximum visited line
number in `last`. -/
def scanLines (env : ScanEnv) (skillMap : List (String × String)) (log_path : String)
    (cursor : Int) :
    List (Option String) → Nat → SkillStore → Int → CodexScanStats →
    SkillStore × Int × CodexScanStats
  | [], _, store, last, st => (store, last, st)
  | l :: rest, idx, store, last, st =>
    let line_no : Int := (idx : Int) + 1
    if line_no ≤ cursor then
      scanLines env skillMap log_path cursor rest (idx + 1) store last st
    else
      let st1 := { st with processed_lines := st.processed_lines + 1 }
      let r := processLine env skillMap log_path line_no l store st1
      scanLines env skillMap log_path cursor rest (idx + 1) r.1 line_no r.2

/-- The per-file body of `scan_codex_rollout_logs` (lines 133-215): read the
cursor, open the file (an open failure is one parse error and no further
effect), run the line loop, then persist the cursor when it advanced, or
persist a `0` row for a first-time-seen file. -/
def scanFile (env : ScanEnv) (skillMap : List (String × String)) (store : SkillStore)
    (log_path : String) : SkillStore × CodexScanStats :=
  let cursor := (get_codex_scan_cursor_last_line store log_path).getD 0
  match env.files log_path with
  | none => (store, { parse_errors := 1 })
  | some ls =>
    let r := scanLines env skillMap log_path cursor ls 0 store cursor {}
    let store1 :=
      if r.2.1 > cursor then upsert_codex_scan_cursor r.1 log_path r.2.1 env.now_ms
      else if cursor = 0 then
        -- Ensure a cursor row exists for an empty new file (best-effort).
        upsert_codex_scan_cursor r.1 log_path 0 env.now_ms
      else r.1
    (store1, r.2.2)

/-- Fold of `scanFile` over the discovered logs, accumulating statistics. -/
def scanLogsGo (env : ScanEnv) (skillMap : List (String × String)) :
    List String → SkillStore → CodexScanStats → SkillStore × CodexScanStats
  | [], store, st => (store, st)
  | p :: rest, store, st =>
    let r := scanFile env skillMap store p
    scanLogsGo env skillMap rest r.1 (addStats st r.2)

/-- `scan_codex_rollout_logs` (codex_analytics.rs lines 119-218) over an
explicit list of discovered log paths (its `rollout_logs` argument):
`scanned_files` is the number of discovered logs. -/
def scan_codex_rollout_logs (env : ScanEnv) (store : SkillStore) (rollout_logs : List String) :
    SkillStore × CodexScanStats :=
  scanLogsGo env (build_skill_key_to_id store.skills) rollout_logs store
    { scanned_files := rollout_logs.length }

/-! ## Backfill (codex_analytics.rs lines 263-277 and 404-444) -/

/-- Adjacent deduplication, Rust `Vec::dedup`. -/
def dedupAdj : List String → List String
  | [] => []
  | [a] => [a]
  | a :: b :: rest => if a = b then dedupAdj (b :: rest) else a :: dedupAdj (b :: rest)

/-- The day loop of `collect_rollout_logs_for_days` (lines 410-439):
validate traversal safety (a fatal error), skip blank or non-existing days,
and gather the rollout logs of each surviving day.  `dayExists` models
`sessions_dir.join(day).exists()` and `dayLogs` the restricted `WalkDir`
file walk for one day. -/
def collectDaysGo (dayExists : String → Bool) (dayLogs : String → List String) :
    List String → Except String (List String)
  | [] => .ok []
  | day :: rest =>
    if ¬ is_safe_relative_path day then .error ("invalid day path: " ++ day)
    else if strTrim day = "" then collectDaysGo dayExists dayLogs rest
    else if ¬ dayExists day then collectDaysGo dayExists dayLogs rest
    else
      match collectDaysGo dayExists dayLogs rest with
      | .error e => .error e
      | .ok more => .ok (dayLogs day ++ more)

/-- `collect_rollout_logs_for_days` (lines 404-444): gather, then
`sort`-and-`dedup`. -/
def collect_rollout_logs_for_days (dayExists : String → Bool) (dayLogs : String → List String)
    (selected_days : List String) : Except String (List String) :=
  match collectDaysGo dayExists dayLogs selected_days with
  | .error e => .error e
  | .ok logs => .ok (dedupAdj (sortStrings logs))

/-- `backfill_codex_session_days` (lines 263-277): collect the day logs
(a traversal-unsafe day aborts the whole call before any store mutation —
the error carries the store at the point of failure), force the cursor of
every selected log to 0, then run the scan primitive. -/
def backfill_codex_session_days (env : ScanEnv) (dayExists : String → Bool)
    (dayLogs : String → List String) (store : SkillStore) (selected_days : List String) :
    Except (String × SkillStore) (SkillStore × CodexScanStats) :=
  match collect_rollout_logs_for_days dayExists dayLogs selected_days with
  | .error e => .error (e, store)
  | .ok rollout_logs =>
    let store := rollout_logs.foldl
      (fun s p => upsert_codex_scan_cursor s p 0 env.now_ms) store
    .ok (scan_codex_rollout_logs env store rollout_logs)

/-! ## Clear and retention cleanup (codex_analytics.rs lines 327-365, 446-455) -/

/-- `count_lines` (lines 446-455): `none` models an `Err` (open failure or
any unreadable line — `line?` aborts the count at the first read error). -/
def count_lines (content : Option (List (Option String))) : Option Int :=
  match content with
  | none => none
  | some ls => if ls.any (fun l => l.isNone) then none else some (ls.length : Int)

/-- `set_codex_cursors_to_eof` (lines 354-365): drop every cursor row, then
write one row per discoverable log at its line count (`unwrap_or(0)`). -/
def set_codex_cursors_to_eof (env : ScanEnv) (store : SkillStore) (rollout_logs : List String) :
    SkillStore :=
  rollout_logs.foldl
    (fun s p => upsert_codex_scan_cursor s p ((count_lines (env.files p)).getD 0) env.now_ms)
    (clear_codex_scan_cursors store)

/-- `clear_codex_analytics` (lines 342-352): delete all events for the tool,
then advance every discoverable log`s cursor to end-of-file; returns the
deleted-event count (`ClearCodexAnalyticsResult.deleted_events`). -/
def clear_codex_analytics (env : ScanEnv) (store : SkillStore) (rollout_logs : List String) :
    SkillStore × Nat :=
  let r := delete_skill_usage_events_for_tool store "codex"
  (set_codex_cursors_to_eof env r.1 rollout_logs, r.2)

/-- Smallest `i64`. -/
def i64Min : Int := -(2 ^ 63)

/-- Largest `i64`. -/
def i64Max : Int := 2 ^ 63 - 1

/-- Clamp into the `i64` range. -/
def i64Clamp (x : Int) : Int := max i64Min (min i64Max x)

/-- Rust `i64::saturating_mul`. -/
def i64SaturatingMul (a b : Int) : Int := i64Clamp (a * b)

/-- Rust `i64::saturating_sub`. -/
def i64SaturatingSub (a b : Int) : Int := i64Clamp (a - b)

/-- `cleanup_old_codex_events` (lines 332-340): clamp the window at 0 days,
compute the threshold with saturating `i64` arithmetic, and delete the
tool`s events strictly older than the threshold. -/
def cleanup_old_codex_events (store : SkillStore) (retention_days now_ms : Int) :
    SkillStore × Nat :=
  let retention_days := max retention_days 0
  let threshold := i64SaturatingSub now_ms (i64SaturatingMul retention_days 86400000)
  delete_skill_usage_events_before store "codex" threshold

/-! ## Store lemmas -/

theorem get_cursor_congr {s t : SkillStore} (h : s.cursors = t.cursors) (p : String) :
    get_codex_scan_cursor_last_line s p = get_codex_scan_cursor_last_line t p := by
  unfold get_codex_scan_cursor_last_line
  rw [h]

theorem upsert_events (s : SkillStore) (p : String) (n t : Int) :
    (upsert_codex_scan_cursor s p n t).events = s.events := by
  unfold upsert_codex_scan_cursor
  split <;> rfl

theorem upsert_skills (s : SkillStore) (p : String) (n t : Int) :
    (upsert_codex_scan_cursor s p n t).skills = s.skills := by
  unfold upsert_codex_scan_cursor
  split <;> rfl

theorem find_map_upsert_self (l : List (String × Int × Int)) (p : String) (n t : Int)
    (h : l.any (fun c => c.1 == p) = true) :
    ((l.map (fun c => if c.1 == p then (p, n, t) else c)).find? (fun c => c.1 == p)) =
      some (p, n, t) := by
  induction l with
  | nil => simp at h
  | cons c rest ih =>
    by_cases hc : c.1 == p
    · simp [hc, List.find?]
    · simp only [List.any_cons, hc, Bool.false_or] at h
      simp only [List.map_cons, hc, if_neg]
      rw [List.find?_cons_of_neg _ (by simpa using hc)]
      exact ih h

theorem find_append_none (l : List (String × Int × Int)) (p : String) (n t : Int)
    (h : l.any (fun c => c.1 == p) = false) :
    ((l ++ [(p, n, t)]).find? (fun c => c.1 == p)) = some (p, n, t) := by
  induction l with
  | nil => simp [List.find?]
  | cons c rest ih =>
    simp only [List.any_cons, Bool.or_eq_false_iff] at h
    simp only [List.cons_append]
    rw [List.find?_cons_of_neg _ (by simp [h.1])]
    exact ih h.2

theorem get_upsert_self (s : SkillStore) (p : String) (n t : Int) :
    get_codex_scan_cursor_last_line (upsert_codex_scan_cursor s p n t) p = some n := by
  unfold upsert_codex_scan_cursor get_codex_scan_cursor_last_line
  by_cases h : s.cursors.any (fun c => c.1 == p)
  · simp only [h, if_pos]
    rw [find_map_upsert_self s.cursors p n t h]
    rfl
  · simp only [h, if_neg, Bool.false_eq_true, not_false_iff]
    rw [find_append_none s.cursors p n t (Bool.eq_false_iff.mpr h)]
    rfl

theorem get_upsert_other (s : SkillStore) (p q : String) (n t : Int) (hqp : q ≠ p) :
    get_codex_scan_cursor_last_line (upsert_codex_scan_cursor s p n t) q =
      get_codex_scan_cursor_last_line s q := by
  unfold upsert_codex_scan_cursor get_codex_scan_cursor_last_line
  by_cases h : s.cursors.any (fun c => c.1 == p)
  · simp only [h, if_pos]
    congr 1
    induction s.cursors with
    | nil => rfl
    | cons c rest ih =>
      by_cases hc : c.1 == p
      · have hcp : c.1 = p := by simpa using hc
        rw [List.map_cons, if_pos hc]
        rw [List.find?_cons_of_neg _ (by simp [Ne.symm hqp]),
            List.find?_cons_of_neg _ (by simp [hcp, Ne.symm hqp])]
        exact ih
      · rw [List.map_cons, if_neg hc]
        by_cases hq : c.1 == q
        · rw [List.find?_cons_of_pos _ (by simpa using hq),
              List.find?_cons_of_pos _ (by simpa using hq)]
        · rw [List.find?_cons_of_neg _ (by simpa using hq),
              List.find?_cons_of_neg _ (by simpa using hq)]
          exact ih
  · simp only [h, if_neg, Bool.false_eq_true, not_false_iff]
    congr 1
    induction s.cursors with
    | nil =>
      have hpq : (p == q) = false := by simp [Ne.symm hqp]
      simp [List.find?, hpq]
    | cons c rest ih =>
      by_cases hq : c.1 == q
      · rw [List.cons_append, List.find?_cons_of_pos _ (by simpa using hq),
            List.find?_cons_of_pos _ (by simpa using hq)]
      · rw [List.cons_append, List.find?_cons_of_neg _ (by simpa using hq),
            List.find?_cons_of_neg _ (by simpa using hq)]
        exact ih

theorem insert_cursors (s : SkillStore) (tool skill_key : String) (mid : Option String)
    (ts : Int) (wd pp lp : String) (ln created : Int) :
    (insert_skill_usage_event s tool skill_key mid ts wd pp lp ln created).1.cursors =
      s.cursors := by
  unfold insert_skill_usage_event
  split <;> rfl

/-! ## Per-line and line-loop lemmas -/

theorem processLine_cursors (env : ScanEnv) (m : List (String × String)) (p : String)
    (ln : Int) (l : Option String) (store : SkillStore) (st : CodexScanStats) :
    (processLine env m p ln l store st).1.cursors = store.cursors := by
  unfold processLine
  cases l with
  | none => rfl
  | some lstr =>
    cases hp : parse_rollout_line_for_use_skill lstr with
    | none => simp only [hp]
    | some ev =>
      simp only [hp]
      cases hc : canonicalize_codex_skill_key env.skillsFs ev.skill_key with
      | none => simp only [hc]
      | some key =>
        simp only [hc]
        exact insert_cursors ..

/-- Provenance of events appended by one line step: anything new comes from a
successfully parsed and canonicalized line and carries the timestamp-replacement
rule and the dedup-key fields. -/
theorem processLine_provenance (env : ScanEnv) (m : List (String × String)) (p : String)
    (ln : Int) (l : Option String) (store : SkillStore) (st : CodexScanStats)
    (e : StoredEvent) (he : e ∈ (processLine env m p ln l store st).1.events) :
    e ∈ store.events ∨
      ∃ lstr ev, l = some lstr ∧ parse_rollout_line_for_use_skill lstr = some ev ∧
        canonicalize_codex_skill_key env.skillsFs ev.skill_key = some e.skill_key ∧
        e.tool = "codex" ∧ e.log_path = p ∧ e.log_line = ln ∧
        e.ts_ms = (if ev.ts_ms > 0 then ev.ts_ms else env.now_ms) := by
  unfold processLine at he
  cases l with
  | none => exact Or.inl he
  | some lstr =>
    cases hp : parse_rollout_line_for_use_skill lstr with
    | none =>
      simp only [hp] at he
      exact Or.inl he
    | some ev =>
      simp only [hp] at he
      cases hc : canonicalize_codex_skill_key env.skillsFs ev.skill_key with
      | none =>
        simp only [hc] at he
        exact Or.inl he
      | some key =>
        simp only [hc] at he
        unfold insert_skill_usage_event at he
        by_cases hin : store.events.any (fun x => eventKeyMatches x "codex" p ln)
        · rw [if_pos hin] at he
          exact Or.inl he
        · rw [if_neg hin] at he
          simp only [List.mem_append, List.mem_singleton] at he
          rcases he with he | he
          · exact Or.inl he
          · subst he
            exact Or.inr ⟨lstr, ev, rfl, hp, hc, rfl, rfl, rfl, rfl⟩

/-- When every line that would be inserted already has a persisted event with
the same `(tool, log_path, log_line)` key, one line step changes no events and
adds no new event. -/
theorem processLine_dup (env : ScanEnv) (m : List (String × String)) (p : String)
    (ln : Int) (l : Option String) (store : SkillStore) (st : CodexScanStats)
    (hkey : ∀ lstr ev key, l = some lstr → parse_rollout_line_for_use_skill lstr = some ev →
      canonicalize_codex_skill_key env.skillsFs ev.skill_key = some key →
      ∃ e0 ∈ store.events, e0.tool = "codex" ∧ e0.log_path = p ∧ e0.log_line = ln) :
    (processLine env m p ln l store st).1.events = store.events ∧
      (processLine env m p ln l store st).2.new_events = st.new_events := by
  unfold processLine
  cases l with
  | none => exact ⟨rfl, rfl⟩
  | some lstr =>
    cases hp : parse_rollout_line_for_use_skill lstr with
    | none =>
      simp only [hp]
      exact ⟨trivial, trivial⟩
    | some ev =>
      simp only [hp]
      cases hc : canonicalize_codex_skill_key env.skillsFs ev.skill_key with
      | none =>
        simp only [hc]
        exact ⟨trivial, trivial⟩
      | some key =>
        simp only [hc]
        obtain ⟨e0, he0, ht, hl, hn⟩ := hkey lstr ev key rfl hp hc
        have hin : store.events.any (fun x => eventKeyMatches x "codex" p ln) = true := by
          rw [List.any_eq_true]
          refine ⟨e0, he0, ?_⟩
          unfold eventKeyMatches
          simp [ht, hl, hn]
        unfold insert_skill_usage_event
        rw [if_pos hin]
        simp

theorem scanLines_cursors (env : ScanEnv) (m : List (String × String)) (p : String)
    (c : Int) (ls : List (Option String)) :
    ∀ idx store last st,
      (scanLines env m p c ls idx store last st).1.cursors = store.cursors := by
  induction ls with
  | nil => intro idx store last st; rfl
  | cons l rest ih =>
    intro idx store last st
    simp only [scanLines]
    split
    · exact ih ..
    · rw [ih]
      exact processLine_cursors ..

theorem scanLines_skip (env : ScanEnv) (m : List (String × String)) (p : String)
    (c : Int) (ls : List (Option String)) :
    ∀ (idx : Nat) (store : SkillStore) (last : Int) (st : CodexScanStats),
      ((idx : Int) + ls.length ≤ c) →
      scanLines env m p c ls idx store last st = (store, last, st) := by
  induction ls with
  | nil => intro idx store last st _; rfl
  | cons l rest ih =>
    intro idx store last st h
    simp only [List.length_cons] at h
    simp only [scanLines]
    rw [if_pos (by push_cast at h ⊢; omega)]
    apply ih
    push_cast at h ⊢
    omega

theorem scanLines_last (env : ScanEnv) (m : List (String × String)) (p : String)
    (c : Int) (ls : List (Option String)) :
    ∀ (idx : Nat) (store : SkillStore) (last : Int) (st : CodexScanStats),
      (scanLines env m p c ls idx store last st).2.1 =
        if 1 ≤ ls.length then
          (if c < (idx : Int) + ls.length then (idx : Int) + ls.length else last)
        else last := by
  induction ls with
  | nil =>
    intro idx store last st
    simp [scanLines]
  | cons l rest ih =>
    intro idx store last st
    simp only [scanLines, List.length_cons]
    by_cases h : ((idx : Int) + 1) ≤ c
    · rw [if_pos h, ih]
      push_cast
      split_ifs <;> omega
    · rw [if_neg h, ih]
      push_cast
      split_ifs <;> omega

theorem scanLines_provenance (env : ScanEnv) (m : List (String × String)) (p : String)
    (c : Int) (ls : List (Option String)) :
    ∀ (idx : Nat) (store : SkillStore) (last : Int) (st : CodexScanStats) (e : StoredEvent),
      e ∈ (scanLines env m p c ls idx store last st).1.events →
      e ∈ store.events ∨
        ∃ (i : Nat) (lstr : String) (ev : CodexUseSkillEvent),
          ls[i]? = some (some lstr) ∧ e.log_line = (idx : Int) + (i : Int) + 1 ∧
          parse_rollout_line_for_use_skill lstr = some ev ∧
          canonicalize_codex_skill_key env.skillsFs ev.skill_key = some e.skill_key ∧
          e.tool = "codex" ∧ e.log_path = p ∧
          e.ts_ms = (if ev.ts_ms > 0 then ev.ts_ms else env.now_ms) := by
  induction ls with
  | nil => intro idx store last st e he; exact Or.inl he
  | cons l rest ih =>
    intro idx store last st e he
    simp only [scanLines] at he
    split at he
    · rcases ih _ _ _ _ _ he with h | ⟨i, lstr, ev, hget, hline, hrest⟩
      · exact Or.inl h
      · refine Or.inr ⟨i + 1, lstr, ev, ?_, ?_, hrest⟩
        · rw [List.getElem?_cons_succ]
          exact hget
        · push_cast at hline ⊢
          omega
    · rcases ih _ _ _ _ _ he with h | ⟨i, lstr, ev, hget, hline, hrest⟩
      · rcases processLine_provenance _ _ _ _ _ _ _ _ h with
          h2 | ⟨lstr, ev, hl, hparse, hcanon, htool, hpath, hline2, hts⟩
        · exact Or.inl h2
        · refine Or.inr ⟨0, lstr, ev, ?_, ?_, hparse, hcanon, htool, hpath, hts⟩
          · rw [hl, List.getElem?_cons_zero]
          · rw [hline2]
            push_cast
            omega
      · refine Or.inr ⟨i + 1, lstr, ev, ?_, ?_, hrest⟩
        · rw [List.getElem?_cons_succ]
          exact hget
        · push_cast at hline ⊢
          omega

theorem scanLines_dup (env : ScanEnv) (m : List (String × String)) (p : String)
    (c : Int) (ls : List (Option String)) :
    ∀ (idx : Nat) (store : SkillStore) (last : Int) (st : CodexScanStats),
      (∀ (i : Nat) (lstr : String) (ev : CodexUseSkillEvent) (key : String),
        ls[i]? = some (some lstr) →
        parse_rollout_line_for_use_skill lstr = some ev →
        canonicalize_codex_skill_key env.skillsFs ev.skill_key = some key →
        ∃ e0 ∈ store.events, e0.tool = "codex" ∧ e0.log_path = p ∧
          e0.log_line = (idx : Int) + (i : Int) + 1) →
      (scanLines env m p c ls idx store last st).1.events = store.events ∧
        (scanLines env m p c ls idx store last st).2.2.new_events = st.new_events := by
  induction ls with
  | nil => intro idx store last st _; exact ⟨rfl, rfl⟩
  | cons l rest ih =>
    intro idx store last st hkey
    simp only [scanLines]
    split
    · apply ih
      intro i lstr ev key hget hp hc
      obtain ⟨e0, he0, hprops⟩ := hkey (i + 1) lstr ev key
        (by rw [List.getElem?_cons_succ]; exact hget) hp hc
      refine ⟨e0, he0, hprops.1, hprops.2.1, ?_⟩
      have := hprops.2.2
      push_cast at this ⊢
      omega
    · have hpl := processLine_dup env m p ((idx : Int) + 1) l store
        { st with processed_lines := st.processed_lines + 1 }
        (by
          intro lstr ev key hl hp hc
          obtain ⟨e0, he0, hprops⟩ := hkey 0 lstr ev key
            (by rw [hl, List.getElem?_cons_zero]) hp hc
          refine ⟨e0, he0, hprops.1, hprops.2.1, ?_⟩
          have := hprops.2.2
          omega)
      have hih := ih (idx + 1)
        (processLine env m p ((idx : Int) + 1) l store
          { st with processed_lines := st.processed_lines + 1 }).1 ((idx : Int) + 1)
        (processLine env m p ((idx : Int) + 1) l store
          { st with processed_lines := st.processed_lines + 1 }).2
        (by
          intro i lstr ev key hget hp hc
          obtain ⟨e0, he0, hprops⟩ := hkey (i + 1) lstr ev key
            (by rw [List.getElem?_cons_succ]; exact hget) hp hc
          rw [hpl.1]
          refine ⟨e0, he0, hprops.1, hprops.2.1, ?_⟩
          have := hprops.2.2
          push_cast at this ⊢
          omega)
      refine ⟨hih.1.trans hpl.1, hih.2.trans ?_⟩
      rw [hpl.2]

/-! ## Per-file lemmas -/

/-- The line-loop run performed by `scanFile` on an opened file. -/
def scanLinesRun (env : ScanEnv) (m : List (String × String)) (store : SkillStore)
    (p : String) (ls : List (Option String)) : SkillStore × Int × CodexScanStats :=
  scanLines env m p ((get_codex_scan_cursor_last_line store p).getD 0) ls 0 store
    ((get_codex_scan_cursor_last_line store p).getD 0) {}

theorem scanFile_none (env : ScanEnv) (m : List (String × String)) (store : SkillStore)
    (p : String) (h : env.files p = none) :
    scanFile env m store p = (store, { parse_errors := 1 }) := by
  unfold scanFile
  rw [h]

theorem scanFile_fst_some (env : ScanEnv) (m : List (String × String)) (store : SkillStore)
    (p : String) (ls : List (Option String)) (hf : env.files p = some ls) :
    (scanFile env m store p).1 =
      (if (scanLinesRun env m store p ls).2.1 > (get_codex_scan_cursor_last_line store p).getD 0
       then upsert_codex_scan_cursor (scanLinesRun env m store p ls).1 p
         (scanLinesRun env m store p ls).2.1 env.now_ms
       else if (get_codex_scan_cursor_last_line store p).getD 0 = 0
       then upsert_codex_scan_cursor (scanLinesRun env m store p ls).1 p 0 env.now_ms
       else (scanLinesRun env m store p ls).1) := by
  unfold scanFile scanLinesRun
  rw [hf]

theorem scanFile_snd_some (env : ScanEnv) (m : List (String × String)) (store : SkillStore)
    (p : String) (ls : List (Option String)) (hf : env.files p = some ls) :
    (scanFile env m store p).2 = (scanLinesRun env m store p ls).2.2 := by
  unfold scanFile scanLinesRun
  rw [hf]

theorem scanFile_events_provenance (env : ScanEnv) (m : List (String × String))
    (store : SkillStore) (p : String) (e : StoredEvent)
    (he : e ∈ (scanFile env m store p).1.events) :
    e ∈ store.events ∨
      ∃ (ls : List (Option String)) (i : Nat) (lstr : String) (ev : CodexUseSkillEvent),
        env.files p = some ls ∧ ls[i]? = some (some lstr) ∧
        e.log_line = (i : Int) + 1 ∧
        parse_rollout_line_for_use_skill lstr = some ev ∧
        canonicalize_codex_skill_key env.skillsFs ev.skill_key = some e.skill_key ∧
        e.tool = "codex" ∧ e.log_path = p ∧
        e.ts_ms = (if ev.ts_ms > 0 then ev.ts_ms else env.now_ms) := by
  rcases hfc : env.files p with - | ls
  · rw [scanFile_none env m store p hfc] at he
    exact Or.inl he
  · rw [scanFile_fst_some env m store p ls hfc] at he
    have he2 : e ∈ (scanLinesRun env m store p ls).1.events := by
      split at he
      · rw [upsert_events] at he
        exact he
      · split at he
        · rw [upsert_events] at he
          exact he
        · exact he
    rcases scanLines_provenance _ _ _ _ _ _ _ _ _ _ he2 with
      h | ⟨i, lstr, ev, hget, hline, hrest⟩
    · exact Or.inl h
    · refine Or.inr ⟨ls, i, lstr, ev, rfl, hget, ?_, hrest⟩
      rw [hline]
      push_cast
      omega

theorem scanFile_dup (env : ScanEnv) (m : List (String × String)) (store : SkillStore)
    (p : String)
    (hkey : ∀ (ls : List (Option String)) (i : Nat) (lstr : String)
      (ev : CodexUseSkillEvent) (key : String),
      env.files p = some ls → ls[i]? = some (some lstr) →
      parse_rollout_line_for_use_skill lstr = some ev →
      canonicalize_codex_skill_key env.skillsFs ev.skill_key = some key →
      ∃ e0 ∈ store.events, e0.tool = "codex" ∧ e0.log_path = p ∧
        e0.log_line = (i : Int) + 1) :
    (scanFile env m store p).1.events = store.events ∧
      (scanFile env m store p).2.new_events = 0 := by
  rcases hfc : env.files p with - | ls
  · rw [scanFile_none env m store p hfc]
    exact ⟨rfl, rfl⟩
  · have hd := scanLines_dup env m p ((get_codex_scan_cursor_last_line store p).getD 0) ls 0
      store ((get_codex_scan_cursor_last_line store p).getD 0) {}
      (by
        intro i lstr ev key hget hp hc
        obtain ⟨e0, he0, hprops⟩ := hkey ls i lstr ev key hfc hget hp hc
        refine ⟨e0, he0, hprops.1, hprops.2.1, ?_⟩
        have := hprops.2.2
        push_cast
        omega)
    have hd1 : (scanLinesRun env m store p ls).1.events = store.events := hd.1
    have hd2 : (scanLinesRun env m store p ls).2.2.new_events = 0 := hd.2
    constructor
    · rw [scanFile_fst_some env m store p ls hfc]
      split
      · rw [upsert_events]
        exact hd1
      · split
        · rw [upsert_events]
          exact hd1
        · exact hd1
    · rw [scanFile_snd_some env m store p ls hfc]
      exact hd2

theorem scanFile_cursor_other (env : ScanEnv) (m : List (String × String))
    (store : SkillStore) (p q : String) (hqp : q ≠ p) :
    get_codex_scan_cursor_last_line (scanFile env m store p).1 q =
      get_codex_scan_cursor_last_line store q := by
  rcases hfc : env.files p with - | ls
  · rw [scanFile_none env m store p hfc]
  · rw [scanFile_fst_some env m store p ls hfc]
    have hcur : get_codex_scan_cursor_last_line (scanLinesRun env m store p ls).1 q =
        get_codex_scan_cursor_last_line store q :=
      get_cursor_congr (scanLines_cursors ..) q
    split
    · rw [get_upsert_other _ p q _ _ hqp]
      exact hcur
    · split
      · rw [get_upsert_other _ p q _ _ hqp]
        exact hcur
      · exact hcur

theorem scanLinesRun_last (env : ScanEnv) (m : List (String × String)) (store : SkillStore)
    (p : String) (ls : List (Option String)) :
    (scanLinesRun env m store p ls).2.1 =
      if 1 ≤ ls.length then
        (if (get_codex_scan_cursor_last_line store p).getD 0 < (ls.length : Int)
         then (ls.length : Int)
         else (get_codex_scan_cursor_last_line store p).getD 0)
      else (get_codex_scan_cursor_last_line store p).getD 0 := by
  unfold scanLinesRun
  rw [scanLines_last]
  simp only [Nat.cast_zero, zero_add]

theorem scanFile_cursor_self (env : ScanEnv) (m : List (String × String))
    (store : SkillStore) (p : String) (ls : List (Option String))
    (hf : env.files p = some ls) :
    get_codex_scan_cursor_last_line (scanFile env m store p).1 p =
      (if 1 ≤ ls.length ∧ (get_codex_scan_cursor_last_line store p).getD 0 < (ls.length : Int)
       then some (ls.length : Int)
       else if (get_codex_scan_cursor_last_line store p).getD 0 = 0 then some 0
       else get_codex_scan_cursor_last_line store p) := by
  rw [scanFile_fst_some env m store p ls hf]
  have hglines : get_codex_scan_cursor_last_line (scanLinesRun env m store p ls).1 p =
      get_codex_scan_cursor_last_line store p :=
    get_cursor_congr (scanLines_cursors ..) p
  by_cases h1 : 1 ≤ ls.length
  · by_cases h2 : (get_codex_scan_cursor_last_line store p).getD 0 < (ls.length : Int)
    · have hval : (scanLinesRun env m store p ls).2.1 = (ls.length : Int) := by
        rw [scanLinesRun_last, if_pos h1, if_pos h2]
      have hgt : (scanLinesRun env m store p ls).2.1 >
          (get_codex_scan_cursor_last_line store p).getD 0 := by
        rw [hval]; exact h2
      rw [if_pos hgt, get_upsert_self, hval, if_pos ⟨h1, h2⟩]
    · have hval : (scanLinesRun env m store p ls).2.1 =
          (get_codex_scan_cursor_last_line store p).getD 0 := by
        rw [scanLinesRun_last, if_pos h1, if_neg h2]
      have hngt : ¬ ((scanLinesRun env m store p ls).2.1 >
          (get_codex_scan_cursor_last_line store p).getD 0) := by
        rw [hval]; omega
      rw [if_neg hngt]
      by_cases h3 : (get_codex_scan_cursor_last_line store p).getD 0 = 0
      · rw [if_pos h3, get_upsert_self, if_neg (fun hand => h2 hand.2), if_pos h3]
      · rw [if_neg h3, hglines, if_neg (fun hand => h2 hand.2), if_neg h3]
  · have hval : (scanLinesRun env m store p ls).2.1 =
        (get_codex_scan_cursor_last_line store p).getD 0 := by
      rw [scanLinesRun_last, if_neg h1]
    have hngt : ¬ ((scanLinesRun env m store p ls).2.1 >
        (get_codex_scan_cursor_last_line store p).getD 0) := by
      rw [hval]; omega
    rw [if_neg hngt]
    by_cases h3 : (get_codex_scan_cursor_last_line store p).getD 0 = 0
    · rw [if_pos h3, get_upsert_self, if_neg (fun hand => h1 hand.1), if_pos h3]
    · rw [if_neg h3, hglines, if_neg (fun hand => h1 hand.1), if_neg h3]

theorem scanFile_covers_after (env : ScanEnv) (m : List (String × String))
    (store : SkillStore) (p : String) (ls : List (Option String))
    (hf : env.files p = some ls) :
    ls.length = 0 ∨ (ls.length : Int) ≤
      (get_codex_scan_cursor_last_line (scanFile env m store p).1 p).getD 0 := by
  rw [scanFile_cursor_self env m store p ls hf]
  by_cases h1 : 1 ≤ ls.length ∧
      (get_codex_scan_cursor_last_line store p).getD 0 < (ls.length : Int)
  · rw [if_pos h1]
    right
    simp
  · rw [if_neg h1]
    rcases Nat.lt_or_ge ls.length 1 with h | h
    · left; omega
    · right
      have h2 : (ls.length : Int) ≤ (get_codex_scan_cursor_last_line store p).getD 0 := by
        rcases not_and_or.mp h1 with h2 | h2
        · exact absurd h h2
        · omega
      by_cases h3 : (get_codex_scan_cursor_last_line store p).getD 0 = 0
      · rw [if_pos h3]
        simp only [Option.getD_some]
        omega
      · rw [if_neg h3]
        exact h2

theorem scanFile_covered (env : ScanEnv) (m : List (String × String)) (store : SkillStore)
    (p : String)
    (hcov : ∀ ls, env.files p = some ls →
      ls.length = 0 ∨ (ls.length : Int) ≤ (get_codex_scan_cursor_last_line store p).getD 0) :
    (scanFile env m store p).1.events = store.events ∧
      (scanFile env m store p).2.new_events = 0 ∧
      (scanFile env m store p).2.duplicate_events = 0 ∧
      (scanFile env m store p).2.processed_lines = 0 := by
  rcases hfc : env.files p with - | ls
  · rw [scanFile_none env m store p hfc]
    exact ⟨rfl, rfl, rfl, rfl⟩
  · have hskip : scanLinesRun env m store p ls =
        (store, (get_codex_scan_cursor_last_line store p).getD 0, {}) := by
      unfold scanLinesRun
      rcases hcov ls hfc with h0 | hc
      · rw [List.length_eq_zero.mp h0]
        rfl
      · exact scanLines_skip _ _ _ _ _ _ _ _ _ (by push_cast; omega)
    refine ⟨?_, ?_, ?_, ?_⟩
    · rw [scanFile_fst_some env m store p ls hfc, hskip]
      rw [if_neg (by norm_num)]
      by_cases h3 : (get_codex_scan_cursor_last_line store p).getD 0 = 0
      · rw [if_pos h3]
        exact upsert_events ..
      · rw [if_neg h3]
    · rw [scanFile_snd_some env m store p ls hfc, hskip]
    · rw [scanFile_snd_some env m store p ls hfc, hskip]
    · rw [scanFile_snd_some env m store p ls hfc, hskip]

/-! ## Whole-scan and cursor-fold lemmas -/

theorem addStats_new (a b : CodexScanStats) :
    (addStats a b).new_events = a.new_events + b.new_events := rfl

theorem scanLogsGo_covered (env : ScanEnv) (m : List (String × String)) :
    ∀ (logs : List String) (store : SkillStore) (st : CodexScanStats),
      (∀ q ∈ logs, ∀ ls, env.files q = some ls →
        ls.length = 0 ∨ (ls.length : Int) ≤ (get_codex_scan_cursor_last_line store q).getD 0) →
      (scanLogsGo env m logs store st).1.events = store.events ∧
        (scanLogsGo env m logs store st).2.new_events = st.new_events := by
  intro logs
  induction logs with
  | nil => intro store st _; exact ⟨rfl, rfl⟩
  | cons p rest ih =>
    intro store st hcov
    simp only [scanLogsGo]
    have hc := scanFile_covered env m store p (hcov p (List.mem_cons_self p rest))
    have hih := ih (scanFile env m store p).1 (addStats st (scanFile env m store p).2)
      (by
        intro q hq ls hfq
        by_cases hqp : q = p
        · subst hqp
          exact scanFile_covers_after env m store q ls hfq
        · rw [scanFile_cursor_other env m store p q hqp]
          exact hcov q (List.mem_cons_of_mem p hq) ls hfq)
    refine ⟨hih.1.trans hc.1, hih.2.trans ?_⟩
    rw [addStats_new, hc.2.1]
    omega

theorem scanLogsGo_dup (env : ScanEnv) (m : List (String × String)) :
    ∀ (logs : List String) (store : SkillStore) (st : CodexScanStats),
      (∀ p ∈ logs, ∀ (ls : List (Option String)) (i : Nat) (lstr : String)
        (ev : CodexUseSkillEvent) (key : String),
        env.files p = some ls → ls[i]? = some (some lstr) →
        parse_rollout_line_for_use_skill lstr = some ev →
        canonicalize_codex_skill_key env.skillsFs ev.skill_key = some key →
        ∃ e0 ∈ store.events, e0.tool = "codex" ∧ e0.log_path = p ∧
          e0.log_line = (i : Int) + 1) →
      (scanLogsGo env m logs store st).1.events = store.events ∧
        (scanLogsGo env m logs store st).2.new_events = st.new_events := by
  intro logs
  induction logs with
  | nil => intro store st _; exact ⟨rfl, rfl⟩
  | cons p rest ih =>
    intro store st hkey
    simp only [scanLogsGo]
    have hc := scanFile_dup env m store p (hkey p (List.mem_cons_self p rest))
    have hih := ih (scanFile env m store p).1 (addStats st (scanFile env m store p).2)
      (by
        intro q hq ls i lstr ev key hfq hget hp hcan
        rw [hc.1]
        exact hkey q (List.mem_cons_of_mem p hq) ls i lstr ev key hfq hget hp hcan)
    refine ⟨hih.1.trans hc.1, hih.2.trans ?_⟩
    rw [addStats_new, hc.2]
    omega

theorem foldl_upsert_events (f : String → Int) (t : Int) :
    ∀ (logs : List String) (s : SkillStore),
      (logs.foldl (fun s q => upsert_codex_scan_cursor s q (f q) t) s).events = s.events := by
  intro logs
  induction logs with
  | nil => intro s; rfl
  | cons q rest ih =>
    intro s
    simp only [List.foldl_cons]
    rw [ih, upsert_events]

theorem foldl_upsert_get_not_mem (f : String → Int) (t : Int) :
    ∀ (logs : List String) (s : SkillStore) (p : String), p ∉ logs →
      get_codex_scan_cursor_last_line
        (logs.foldl (fun s q => upsert_codex_scan_cursor s q (f q) t) s) p =
        get_codex_scan_cursor_last_line s p := by
  intro logs
  induction logs with
  | nil => intro s p _; rfl
  | cons q rest ih =>
    intro s p hp
    simp only [List.foldl_cons]
    rw [ih _ _ (fun h => hp (List.mem_cons_of_mem q h)),
      get_upsert_other _ q p _ _ (fun h => hp (h ▸ List.mem_cons_self q rest))]

theorem foldl_upsert_get_mem (f : String → Int) (t : Int) :
    ∀ (logs : List String) (s : SkillStore) (p : String), p ∈ logs →
      get_codex_scan_cursor_last_line
        (logs.foldl (fun s q => upsert_codex_scan_cursor s q (f q) t) s) p = some (f p) := by
  intro logs
  induction logs with
  | nil => intro s p hp; exact absurd hp (List.not_mem_nil p)
  | cons q rest ih =>
    intro s p hp
    simp only [List.foldl_cons]
    by_cases hpr : p ∈ rest
    · exact ih _ _ hpr
    · have hpq : p = q := by
        rcases List.mem_cons.mp hp with h | h
        · exact h
        · exact absurd h hpr
      subst hpq
      rw [foldl_upsert_get_not_mem f t rest _ p hpr]
      exact get_upsert_self ..

/-! ## Extraction and backfill-collection lemmas -/

theorem extractGo_spec :
    ∀ (ts : List String) (k : String), extractGo ts = some k →
      ∃ pre tok post, ts = pre ++ "use-skill" :: tok :: post ∧ "use-skill" ∉ pre ∧
        k = trimQuoteChars tok := by
  intro ts
  induction ts with
  | nil => intro k h; exact absurd h (by simp [extractGo])
  | cons a rest ih =>
    intro k h
    unfold extractGo at h
    by_cases ha : a = "use-skill"
    · rw [if_pos ha] at h
      cases rest with
      | nil => exact absurd h (by simp)
      | cons s post =>
        refine ⟨[], s, post, ?_, List.not_mem_nil _, ?_⟩
        · rw [ha]
          rfl
        · simpa using h.symm
    · rw [if_neg ha] at h
      obtain ⟨pre, tok, post, hts, hpre, hk⟩ := ih k h
      refine ⟨a :: pre, tok, post, by rw [hts]; rfl, ?_, hk⟩
      intro hmem
      rcases List.mem_cons.mp hmem with hm | hm
      · exact ha hm.symm
      · exact hpre hm

theorem collectDaysGo_error (dayExists : String → Bool) (dayLogs : String → List String) :
    ∀ (days : List String), (∃ d ∈ days, is_safe_relative_path d = false) →
      ∃ msg, collectDaysGo dayExists dayLogs days = .error msg := by
  intro days
  induction days with
  | nil =>
    intro h
    obtain ⟨d, hd, _⟩ := h
    exact absurd hd (List.not_mem_nil d)
  | cons day rest ih =>
    intro h
    by_cases hsafe : is_safe_relative_path day
    · have hrest : ∃ d ∈ rest, is_safe_relative_path d = false := by
        obtain ⟨d, hd, hdf⟩ := h
        rcases List.mem_cons.mp hd with hm | hm
        · rw [hm] at hdf
          rw [hdf] at hsafe
          exact absurd hsafe (by simp)
        · exact ⟨d, hm, hdf⟩
      obtain ⟨msg, hmsg⟩ := ih hrest
      unfold collectDaysGo
      rw [if_neg (by simp [hsafe])]
      by_cases hskip : strTrim day = ""
      · rw [if_pos hskip]
        exact ⟨msg, hmsg⟩
      · rw [if_neg hskip]
        by_cases hex : dayExists day
        · rw [if_neg (by simp [hex])]
          rw [hmsg]
          exact ⟨msg, rfl⟩
        · rw [if_pos (by simp [hex])]
          exact ⟨msg, hmsg⟩
    · refine ⟨"invalid day path: " ++ day, ?_⟩
      unfold collectDaysGo
      rw [if_pos (by simp [Bool.eq_false_iff.mpr hsafe])]

theorem scanFile_cursor_none (env : ScanEnv) (m : List (String × String)) (s : SkillStore)
    (p : String) (hf : env.files p = none) :
    get_codex_scan_cursor_last_line (scanFile env m s p).1 p =
      get_codex_scan_cursor_last_line s p := by
  rw [scanFile_none env m s p hf]

/-! ## Claims -/

/-- Claim C9: the persisted cursor of a log file never decreases across scan
passes.  For the per-file scan body: (a) an unopenable file leaves the cursor
untouched; (b) for an opened file the cursor becomes the line count exactly
when the maximum 1-based line number visited (the line count) exceeds the
stored cursor, a `0` row is written when no row existed (or the stored value
was 0), and otherwise the row is unchanged; (c) consequently a stored value
`v` is only ever replaced by some `w ≥ v`; (d) no other file`s cursor is
touched.  Backfill`s explicit reset to 0 and Clear`s advance to end-of-file
are the separately modelled `backfill_codex_session_days` (which upserts 0)
and `set_codex_cursors_to_eof`. -/
theorem c9_scan_cursor_monotone :
    (∀ (env : ScanEnv) (m : List (String × String)) (s : SkillStore) (p : String),
      env.files p = none →
      get_codex_scan_cursor_last_line (scanFile env m s p).1 p =
        get_codex_scan_cursor_last_line s p) ∧
    (∀ (env : ScanEnv) (m : List (String × String)) (s : SkillStore) (p : String)
      (ls : List (Option String)), env.files p = some ls →
      get_codex_scan_cursor_last_line (scanFile env m s p).1 p =
        (if 1 ≤ ls.length ∧ (get_codex_scan_cursor_last_line s p).getD 0 < (ls.length : Int)
         then some (ls.length : Int)
         else if (get_codex_scan_cursor_last_line s p).getD 0 = 0 then some 0
         else get_codex_scan_cursor_last_line s p)) ∧
    (∀ (env : ScanEnv) (m : List (String × String)) (s : SkillStore) (p : String)
      (v w : Int),
      get_codex_scan_cursor_last_line s p = some v →
      get_codex_scan_cursor_last_line (scanFile env m s p).1 p = some w →
      v ≤ w) ∧
    (∀ (env : ScanEnv) (m : List (String × String)) (s : SkillStore) (p q : String),
      q ≠ p →
      get_codex_scan_cursor_last_line (scanFile env m s p).1 q =
        get_codex_scan_cursor_last_line s q) := by
  refine ⟨scanFile_cursor_none, scanFile_cursor_self, ?_, scanFile_cursor_other⟩
  intro env m s p v w hv hw
  rcases hf : env.files p with - | ls
  · rw [scanFile_cursor_none env m s p hf, hv] at hw
    simp only [Option.some.injEq] at hw
    omega
  · rw [scanFile_cursor_self env m s p ls hf, hv] at hw
    simp only [Option.getD_some] at hw
    by_cases h1 : 1 ≤ ls.length ∧ v < (ls.length : Int)
    · rw [if_pos h1] at hw
      simp only [Option.some.injEq] at hw
      omega
    · rw [if_neg h1] at hw
      by_cases h3 : v = 0
      · rw [if_pos h3] at hw
        simp only [Option.some.injEq] at hw
        omega
      · rw [if_neg h3] at hw
        simp only [Option.some.injEq] at hw
        omega

/-- Fixture for the C9 witness: one readable one-line log, empty store. -/
def envW9 : ScanEnv :=
  { files := fun _ => some [some "x"], skillsFs := [], now_ms := 7,
    projectMode := .Workdir, gitRoot := fun w => w }

/-- Fixture store for the C9 witness. -/
def storeW9 : SkillStore := { events := [], cursors := [], skills := [] }

/-- Witness for C9: scanning a one-line file with no cursor row writes the
cursor at line 1. -/
theorem c9_scan_cursor_monotone_witness :
    get_codex_scan_cursor_last_line (scanFile envW9 [] storeW9 "a").1 "a" = some 1 :=
  (c9_scan_cursor_monotone.2.1 envW9 [] storeW9 "a" [some "x"] rfl).trans (by decide)

/-- Claim C1: a log file whose contents are unchanged between two successive
scans contributes `new_events = 0`, `duplicate_events = 0` and
`processed_lines = 0` on the second pass and attempts no insert (the events
list is unchanged): the cursor persisted by the first pass covers every line
number.  `s2` is any store whose cursor row for the file equals the one the
first pass left behind (the intervening files of a full scan touch only their
own rows, by `c9`-conjunct (d)). -/
theorem c1_unchanged_rescan (env env2 : ScanEnv) (m m2 : List (String × String))
    (s s2 : SkillStore) (p : String)
    (hfiles : env2.files p = env.files p)
    (hcur : get_codex_scan_cursor_last_line s2 p =
      get_codex_scan_cursor_last_line (scanFile env m s p).1 p) :
    (scanFile env2 m2 s2 p).2.new_events = 0 ∧
    (scanFile env2 m2 s2 p).2.duplicate_events = 0 ∧
    (scanFile env2 m2 s2 p).2.processed_lines = 0 ∧
    (scanFile env2 m2 s2 p).1.events = s2.events := by
  have hcov : ∀ ls, env2.files p = some ls →
      ls.length = 0 ∨ (ls.length : Int) ≤ (get_codex_scan_cursor_last_line s2 p).getD 0 := by
    intro ls hf2
    rw [hcur]
    have hf : env.files p = some ls := by rw [← hfiles]; exact hf2
    exact scanFile_covers_after env m s p ls hf
  have h := scanFile_covered env2 m2 s2 p hcov
  exact ⟨h.2.1, h.2.2.1, h.2.2.2, h.1⟩

/-- A rollout line with one `use-skill brainstorming` invocation. -/
def lineUse : String :=
  "\x7b\"timestamp\":\"2024-01-01T00:00:00Z\",\"payload\":\x7b\"type\":\"function_call\",\"name\":\"shell_command\",\"arguments\":\"\x7b\\\"command\\\":\\\"use-skill brainstorming\\\",\\\"workdir\\\":\\\"/tmp/w\\\"\x7d\"\x7d\x7d"

/-- Fixture for the C1 witness: a one-line matching log and a skills root
containing `brainstorming`. -/
def envW1 : ScanEnv :=
  { files := fun p => if p = "a" then some [some lineUse] else none,
    skillsFs := ["brainstorming"], now_ms := 5555, projectMode := .Workdir,
    gitRoot := fun w => w }

/-- Fixture store for the C1 witness. -/
def storeW1 : SkillStore := { events := [], cursors := [], skills := [] }

/-- Witness for C1: rescanning the unchanged one-line log right after the
first scan yields all-zero counters and no event change. -/
theorem c1_unchanged_rescan_witness :
    (scanFile envW1 [] (scanFile envW1 [] storeW1 "a").1 "a").2.new_events = 0 ∧
    (scanFile envW1 [] (scanFile envW1 [] storeW1 "a").1 "a").2.duplicate_events = 0 ∧
    (scanFile envW1 [] (scanFile envW1 [] storeW1 "a").1 "a").2.processed_lines = 0 ∧
    (scanFile envW1 [] (scanFile envW1 [] storeW1 "a").1 "a").1.events =
      (scanFile envW1 [] storeW1 "a").1.events :=
  c1_unchanged_rescan envW1 envW1 [] [] storeW1 (scanFile envW1 [] storeW1 "a").1 "a" rfl rfl

/-- When the product and the difference stay inside the `i64` range, the
saturating threshold equals the mathematical one. -/
theorem saturating_threshold_exact (d now_ms : Int) (hd : 0 ≤ d)
    (h1 : d * 86400000 ≤ i64Max) (h2 : i64Min ≤ now_ms - d * 86400000)
    (h3 : now_ms ≤ i64Max) :
    i64SaturatingSub now_ms (i64SaturatingMul d 86400000) = now_ms - d * 86400000 := by
  have hprod : (0 : Int) ≤ d * 86400000 := by positivity
  have hmin : i64Min ≤ (0 : Int) := by unfold i64Min; norm_num
  unfold i64SaturatingMul i64Clamp
  rw [min_eq_right h1, max_eq_right (hmin.trans hprod)]
  unfold i64SaturatingSub i64Clamp
  rw [min_eq_right (by omega), max_eq_right h2]

/-- Claim C4 (amended): for every retention window `d ≥ 0` and reference time
`now_ms`, retention cleanup deletes exactly the tool`s events whose `ts_ms`
is strictly below the threshold computed with saturating `i64` arithmetic,
`sat(now_ms − sat(d · 86 400 000))`, and returns their count; whenever the
product and the difference are representable in `i64` this threshold equals
the mathematical `now_ms − d · 86 400 000` of the original claim. -/
theorem c4_cleanup_exact (store : SkillStore) (d now_ms : Int) (hd : 0 ≤ d) :
    (cleanup_old_codex_events store d now_ms).1.events =
      store.events.filter (fun e => ! (e.tool == "codex" &&
        decide (e.ts_ms < i64SaturatingSub now_ms (i64SaturatingMul d 86400000)))) ∧
    (cleanup_old_codex_events store d now_ms).2 =
      (store.events.filter (fun e => e.tool == "codex" &&
        decide (e.ts_ms < i64SaturatingSub now_ms (i64SaturatingMul d 86400000)))).length ∧
    (d * 86400000 ≤ i64Max → i64Min ≤ now_ms - d * 86400000 → now_ms ≤ i64Max →
      i64SaturatingSub now_ms (i64SaturatingMul d 86400000) = now_ms - d * 86400000) := by
  have hmax : max d 0 = d := by omega
  refine ⟨?_, ?_, fun h1 h2 h3 => saturating_threshold_exact d now_ms hd h1 h2 h3⟩
  · simp only [cleanup_old_codex_events, delete_skill_usage_events_before, hmax]
  · simp only [cleanup_old_codex_events, delete_skill_usage_events_before, hmax]

/-- The event at `ts_ms = -1` used in the C4 counterexample. -/
def eventCx4 : StoredEvent :=
  { tool := "codex", skill_key := "k", managed_skill_id := none, ts_ms := -1,
    workdir := "w", project_path := "w", log_path := "a", log_line := 1,
    created_at_ms := 0 }

/-- Counterexample for C4 as stated: with `d = 200 000 000 000` days and
`now_ms = i64::MAX`, the saturating threshold is `0`, so the event at
`ts_ms = -1` is deleted (count 1) although `-1` is not strictly less than the
mathematical `now_ms − d · 86 400 000`. -/
theorem c4_counterexample :
    (cleanup_old_codex_events { events := [eventCx4], cursors := [], skills := [] }
      200000000000 9223372036854775807).2 = 1 ∧
    ¬ ((-1 : Int) < 9223372036854775807 - 200000000000 * 86400000) := by
  constructor
  · decide
  · decide

/-- Store with events at `ts_ms ∈ {1, 10000}` for the C4 witness. -/
def storeW4 : SkillStore :=
  { events :=
      [{ tool := "codex", skill_key := "k", managed_skill_id := none, ts_ms := 1,
         workdir := "w", project_path := "w", log_path := "a", log_line := 1,
         created_at_ms := 0 },
       { tool := "codex", skill_key := "k", managed_skill_id := none, ts_ms := 10000,
         workdir := "w", project_path := "w", log_path := "a", log_line := 2,
         created_at_ms := 0 }],
    cursors := [], skills := [] }

/-- Witness for C4 (the claim`s own concrete instance): with events at
`ts_ms ∈ {1, 10000}`, `now_ms = 10000` and `d = 0`, exactly the event at
`ts_ms = 1` is deleted and one event remains. -/
theorem c4_cleanup_exact_witness :
    (cleanup_old_codex_events storeW4 0 10000).2 = 1 ∧
    (cleanup_old_codex_events storeW4 0 10000).1.events.length = 1 := by
  have h := c4_cleanup_exact storeW4 0 10000 (by decide)
  exact ⟨h.2.1.trans (by decide), by rw [h.1]; decide⟩

/-- Claim C5 (amended): a zero-day retention window with an in-range
`now_ms` deletes exactly the tool`s events with `ts_ms` strictly less than
`now_ms`; an event whose `ts_ms` equals `now_ms` exactly is retained. -/
theorem c5_cleanup_zero_days (store : SkillStore) (now_ms : Int)
    (h1 : i64Min ≤ now_ms) (h2 : now_ms ≤ i64Max) :
    (cleanup_old_codex_events store 0 now_ms).1.events =
      store.events.filter (fun e => ! (e.tool == "codex" && decide (e.ts_ms < now_ms))) ∧
    (cleanup_old_codex_events store 0 now_ms).2 =
      (store.events.filter (fun e => e.tool == "codex" && decide (e.ts_ms < now_ms))).length ∧
    (∀ e ∈ store.events, e.tool = "codex" → e.ts_ms = now_ms →
      e ∈ (cleanup_old_codex_events store 0 now_ms).1.events) := by
  have hthr : i64SaturatingSub now_ms (i64SaturatingMul 0 86400000) = now_ms := by
    have := saturating_threshold_exact 0 now_ms (by omega) (by unfold i64Max; norm_num)
      (by omega) h2
    omega
  have h := c4_cleanup_exact store 0 now_ms (by omega)
  rw [hthr] at h
  refine ⟨h.1, h.2.1, ?_⟩
  intro e he htool hts
  rw [h.1]
  rw [List.mem_filter]
  refine ⟨he, ?_⟩
  simp [hts]

/-- The event at `ts_ms = now_ms` used for the C5 counterexample. -/
def eventCx5 : StoredEvent :=
  { tool := "codex", skill_key := "k", managed_skill_id := none, ts_ms := 10000,
    workdir := "w", project_path := "w", log_path := "a", log_line := 1,
    created_at_ms := 0 }

/-- Counterexample for C5 as stated: with a zero-day window and
`now_ms = 10000`, the event at `ts_ms = 10000 = now_ms` is NOT deleted — the
deleted count is 0 and the event remains, contradicting "every event with
ts_ms <= now_ms, including an event whose ts_ms equals now_ms exactly,
is deleted". -/
theorem c5_counterexample :
    (cleanup_old_codex_events { events := [eventCx5], cursors := [], skills := [] }
      0 10000).1.events = [eventCx5] ∧
    (cleanup_old_codex_events { events := [eventCx5], cursors := [], skills := [] }
      0 10000).2 = 0 := by
  constructor
  · decide
  · decide

/-- Witness for the amended C5: at `now_ms = 10000` the store `storeW4`
retains its `ts_ms = 10000` event. -/
theorem c5_cleanup_zero_days_witness :
    (cleanup_old_codex_events storeW4 0 10000).1.events =
      storeW4.events.filter (fun e => ! (e.tool == "codex" && decide (e.ts_ms < 10000))) ∧
    (cleanup_old_codex_events storeW4 0 10000).2 = 1 := by
  have h := c5_cleanup_zero_days storeW4 10000 (by decide) (by decide)
  exact ⟨h.1, h.2.1.trans (by decide)⟩

/-- Both stripped surface forms of a raw key fail the traversal-safety check:
the quote-trimmed, `skills/`-stripped key itself, and (when it has the
`superpowers:` form) the further-stripped remainder. -/
def strippedFormsUnsafe (raw : String) : Prop :=
  is_safe_relative_skill_key (stripPrefixOr (trimQuoteChars raw) "skills/") = false ∧
  ∀ rest, stripPrefixOpt (stripPrefixOr (trimQuoteChars raw) "skills/") "superpowers:" =
      some rest →
    is_safe_relative_skill_key (stripPrefixOr rest "skills/") = false

/-- Claim C6: `canonicalize_codex_skill_key` implements exactly the spec`s
ordered rules (it coincides with the spec-worded
`canonicalize_codex_skill_key_specModel`); when neither stripped form of the
raw key is traversal-safe the result is `none` for every filesystem content
(the safety check precedes the existence check); `../../etc/passwd`
canonicalizes to `none` regardless of filesystem contents; and
`superpowers:brainstorming` canonicalizes to `brainstorming` when the skills
root contains `brainstorming` (and no entry literally named
`superpowers:brainstorming`). -/
theorem c6_canonicalize_rules :
    (∀ (skillsFs : List String) (raw : String),
      canonicalize_codex_skill_key skillsFs raw =
        canonicalize_codex_skill_key_specModel skillsFs raw) ∧
    (∀ (skillsFs : List String) (raw : String), strippedFormsUnsafe raw →
      canonicalize_codex_skill_key skillsFs raw = none) ∧
    (∀ skillsFs : List String,
      canonicalize_codex_skill_key skillsFs "../../etc/passwd" = none) ∧
    (∀ skillsFs : List String, skillsFs.contains "brainstorming" = true →
      skillsFs.contains "superpowers:brainstorming" = false →
      canonicalize_codex_skill_key skillsFs "superpowers:brainstorming" =
        some "brainstorming") := by
  have hb : ∀ (skillsFs : List String) (raw : String), strippedFormsUnsafe raw →
      canonicalize_codex_skill_key skillsFs raw = none := by
    intro skillsFs raw hunsafe
    cases hsp : stripPrefixOpt (stripPrefixOr (trimQuoteChars raw) "skills/")
        "superpowers:" with
    | none =>
      simp only [canonicalize_codex_skill_key, hunsafe.1, hsp, Bool.false_and]
      simp
    | some rest =>
      simp only [canonicalize_codex_skill_key, hunsafe.1, hsp, hunsafe.2 rest hsp,
        Bool.false_and]
      simp
  refine ⟨fun skillsFs raw => rfl, hb, ?_, ?_⟩
  · intro skillsFs
    apply hb
    refine ⟨by decide, fun rest h => ?_⟩
    rw [show stripPrefixOpt (stripPrefixOr (trimQuoteChars "../../etc/passwd") "skills/")
        "superpowers:" = none from by decide] at h
    exact Option.noConfusion h
  · intro skillsFs h1 h2
    have e1 : stripPrefixOr (trimQuoteChars "superpowers:brainstorming") "skills/" =
        "superpowers:brainstorming" := by decide
    have e2 : stripPrefixOpt "superpowers:brainstorming" "superpowers:" =
        some "brainstorming" := by decide
    have e3 : stripPrefixOr "brainstorming" "skills/" = "brainstorming" := by decide
    have e4 : is_safe_relative_skill_key "brainstorming" = true := by decide
    simp only [canonicalize_codex_skill_key, e1, h2, Bool.and_false, e2, e3, e4, h1,
      Bool.and_true, Bool.true_and]
    simp

/-- Witness for C6: the two concrete canonicalization examples of the claim,
with skills root `[brainstorming]`. -/
theorem c6_canonicalize_rules_witness :
    canonicalize_codex_skill_key ["brainstorming"] "superpowers:brainstorming" =
      some "brainstorming" ∧
    canonicalize_codex_skill_key ["brainstorming"] "../../etc/passwd" = none :=
  ⟨c6_canonicalize_rules.2.2.2 ["brainstorming"] (by decide) (by decide),
   c6_canonicalize_rules.2.2.1 ["brainstorming"]⟩

/-- Claim C8: a traversal-unsafe day path among the requested backfill days
makes the whole backfill call fail, and the store at the failure point is the
unchanged input store — no cursor was reset and no event inserted, because
`collect_rollout_logs_for_days` validates every day path before any store
mutation. -/
theorem c8_backfill_unsafe_day (env : ScanEnv) (dayExists : String → Bool)
    (dayLogs : String → List String) (store : SkillStore) (days : List String)
    (h : ∃ d ∈ days, is_safe_relative_path d = false) :
    ∃ msg, backfill_codex_session_days env dayExists dayLogs store days =
      .error (msg, store) := by
  obtain ⟨msg, hmsg⟩ := collectDaysGo_error dayExists dayLogs days h
  refine ⟨msg, ?_⟩
  unfold backfill_codex_session_days collect_rollout_logs_for_days
  rw [hmsg]

/-- Fixture environment for the C8 witness. -/
def envW8 : ScanEnv :=
  { files := fun _ => none, skillsFs := [], now_ms := 1, projectMode := .Workdir,
    gitRoot := fun w => w }

/-- Fixture store for the C8 witness: one cursor row that must survive. -/
def storeW8 : SkillStore := { events := [], cursors := [("a", 3, 1)], skills := [] }

/-- Witness for C8: backfilling with the traversal-unsafe day `../evil`
fails and leaves the store exactly as it was. -/
theorem c8_backfill_unsafe_day_witness :
    ∃ msg, backfill_codex_session_days envW8 (fun _ => true) (fun _ => ["a"]) storeW8
      ["2025/01/01", "../evil"] = .error (msg, storeW8) :=
  c8_backfill_unsafe_day envW8 (fun _ => true) (fun _ => ["a"]) storeW8
    ["2025/01/01", "../evil"] ⟨"../evil", by decide, by decide⟩

/-- Claim C2 (amended): for every set of discoverable, unmodified log files
all of whose lines are readable, running Clear (delete the tool`s events,
then set every discoverable log`s cursor to its line count) followed by an
ordinary Scan of the same logs yields `new_events = 0` and changes no
events: cleared history is not resurrected.  (Without the readability
proviso the claim fails: see the counterexample, where `count_lines` errors
on an unreadable line and resets the cursor to 0.) -/
theorem c2_clear_then_rescan (env : ScanEnv) (store : SkillStore) (logs : List String)
    (hreadable : ∀ p ∈ logs, ∀ ls, env.files p = some ls → ∀ l ∈ ls, l ≠ none) :
    (scan_codex_rollout_logs env (clear_codex_analytics env store logs).1 logs).2.new_events
      = 0 ∧
    (scan_codex_rollout_logs env (clear_codex_analytics env store logs).1 logs).1.events =
      (clear_codex_analytics env store logs).1.events := by
  have hcov : ∀ q ∈ logs, ∀ ls, env.files q = some ls →
      ls.length = 0 ∨ (ls.length : Int) ≤
        (get_codex_scan_cursor_last_line (clear_codex_analytics env store logs).1 q).getD 0 := by
    intro q hq ls hfq
    have hget : get_codex_scan_cursor_last_line (clear_codex_analytics env store logs).1 q =
        some ((count_lines (env.files q)).getD 0) := by
      unfold clear_codex_analytics set_codex_cursors_to_eof
      exact foldl_upsert_get_mem (fun r => (count_lines (env.files r)).getD 0) env.now_ms
        logs _ q hq
    have hcount : count_lines (env.files q) = some (ls.length : Int) := by
      rw [hfq]
      show (if (ls.any fun l => l.isNone) = true then none else some (ls.length : Int)) =
        some (ls.length : Int)
      rw [if_neg ?hna]
      case hna =>
        rw [List.any_eq_true]
        rintro ⟨l, hl, hln⟩
        have := hreadable q hq ls hfq l hl
        cases l with
        | none => exact this rfl
        | some _ => exact Bool.noConfusion hln
    right
    rw [hget, hcount]
    simp
  have h := scanLogsGo_covered env
    (build_skill_key_to_id (clear_codex_analytics env store logs).1.skills) logs
    (clear_codex_analytics env store logs).1 { scanned_files := logs.length } hcov
  exact ⟨h.2, h.1⟩

/-- A second rollout line (different key token) used by fixtures. -/
def envC2bad : ScanEnv :=
  { files := fun p => if p = "a" then some [none, some lineUse] else none,
    skillsFs := ["brainstorming"], now_ms := 5555, projectMode := .Workdir,
    gitRoot := fun w => w }

/-- Store state after the log was fully scanned once: the event of line 2 is
persisted and the cursor stands at 2. -/
def storeC2 : SkillStore :=
  { events :=
      [{ tool := "codex", skill_key := "brainstorming", managed_skill_id := none,
         ts_ms := 1704067200000, workdir := "/tmp/w", project_path := "/tmp/w",
         log_path := "a", log_line := 2, created_at_ms := 5555 }],
    cursors := [("a", 2, 5555)], skills := [] }

/-- Counterexample for C2 as stated: the discoverable log `a` is unmodified,
but its first line is unreadable, so Clear`s `count_lines` fails and the
cursor is reset to 0 instead of end-of-file; the following Scan then
re-inserts the cleared event: `new_events = 1`, not 0. -/
theorem c2_counterexample :
    (scan_codex_rollout_logs envC2bad (clear_codex_analytics envC2bad storeC2 ["a"]).1
      ["a"]).2.new_events = 1 := by
  decide

/-- Fixture for the C2 witness: the same log with every line readable. -/
def envC2good : ScanEnv :=
  { files := fun p => if p = "a" then some [some lineUse] else none,
    skillsFs := ["brainstorming"], now_ms := 5555, projectMode := .Workdir,
    gitRoot := fun w => w }

/-- Store for the C2 witness, as after a full scan of the readable log. -/
def storeC2w : SkillStore :=
  { events :=
      [{ tool := "codex", skill_key := "brainstorming", managed_skill_id := none,
         ts_ms := 1704067200000, workdir := "/tmp/w", project_path := "/tmp/w",
         log_path := "a", log_line := 1, created_at_ms := 5555 }],
    cursors := [("a", 1, 5555)], skills := [] }

/-- Witness for the amended C2: with every line readable, clearing and then
rescanning the unchanged log yields no new events and no event change. -/
theorem c2_clear_then_rescan_witness :
    (scan_codex_rollout_logs envC2good (clear_codex_analytics envC2good storeC2w ["a"]).1
      ["a"]).2.new_events = 0 ∧
    (scan_codex_rollout_logs envC2good (clear_codex_analytics envC2good storeC2w ["a"]).1
      ["a"]).1.events = (clear_codex_analytics envC2good storeC2w ["a"]).1.events := by
  apply c2_clear_then_rescan
  intro p hp ls hf l hl
  have hpa : p = "a" := by simpa using hp
  subst hpa
  have hls : ls = [some lineUse] := by
    have h2 : some [some lineUse] = some ls := by
      rw [← hf]
      rfl
    exact (Option.some.injEq _ _ ▸ h2 : [some lineUse] = ls).symm
  subst hls
  rcases List.mem_singleton.mp hl with rfl
  exact Option.noConfusion

/-- Claim C3: backfilling days whose logs are already fully scanned leaves
the persisted events unchanged and produces no new events.  "Fully scanned"
is the hypothesis that every line of every collected log that parses and
canonicalizes already has a persisted event with the dedup key
`(codex, log_path, line_number)`; the cursor reset to 0 makes every line
eligible again, but each insert hits the existing key and is counted as a
duplicate, not a second event. -/
theorem c3_backfill_no_growth (env : ScanEnv) (dayExists : String → Bool)
    (dayLogs : String → List String) (store : SkillStore) (days logs : List String)
    (hcollect : collect_rollout_logs_for_days dayExists dayLogs days = .ok logs)
    (hscanned : ∀ p ∈ logs, ∀ (ls : List (Option String)) (i : Nat) (lstr : String)
      (ev : CodexUseSkillEvent) (key : String),
      env.files p = some ls → ls[i]? = some (some lstr) →
      parse_rollout_line_for_use_skill lstr = some ev →
      canonicalize_codex_skill_key env.skillsFs ev.skill_key = some key →
      ∃ e0 ∈ store.events, e0.tool = "codex" ∧ e0.log_path = p ∧
        e0.log_line = (i : Int) + 1) :
    ∃ s2 stats, backfill_codex_session_days env dayExists dayLogs store days =
      .ok (s2, stats) ∧ s2.events = store.events ∧ stats.new_events = 0 := by
  refine ⟨(scan_codex_rollout_logs env
      (logs.foldl (fun s p => upsert_codex_scan_cursor s p 0 env.now_ms) store) logs).1,
    (scan_codex_rollout_logs env
      (logs.foldl (fun s p => upsert_codex_scan_cursor s p 0 env.now_ms) store) logs).2,
    ?_, ?_, ?_⟩
  · unfold backfill_codex_session_days
    rw [hcollect]
  · unfold scan_codex_rollout_logs
    have h := scanLogsGo_dup env
      (build_skill_key_to_id
        (logs.foldl (fun s p => upsert_codex_scan_cursor s p 0 env.now_ms) store).skills)
      logs (logs.foldl (fun s p => upsert_codex_scan_cursor s p 0 env.now_ms) store)
      { scanned_files := logs.length }
      (by
        intro p hp ls i lstr ev key hf hget hpl hcl
        rw [foldl_upsert_events]
        exact hscanned p hp ls i lstr ev key hf hget hpl hcl)
    rw [h.1, foldl_upsert_events]
  · unfold scan_codex_rollout_logs
    have h := scanLogsGo_dup env
      (build_skill_key_to_id
        (logs.foldl (fun s p => upsert_codex_scan_cursor s p 0 env.now_ms) store).skills)
      logs (logs.foldl (fun s p => upsert_codex_scan_cursor s p 0 env.now_ms) store)
      { scanned_files := logs.length }
      (by
        intro p hp ls i lstr ev key hf hget hpl hcl
        rw [foldl_upsert_events]
        exact hscanned p hp ls i lstr ev key hf hget hpl hcl)
    rw [h.2]

/-- Fixture for the C3 witness: one day whose single log holds one matching
line that is already persisted at key `(codex, a, 1)`. -/
def envC3 : ScanEnv :=
  { files := fun p => if p = "a" then some [some lineUse] else none,
    skillsFs := ["brainstorming"], now_ms := 6000, projectMode := .Workdir,
    gitRoot := fun w => w }

/-- The already-persisted event for the C3 witness. -/
def eventC3 : StoredEvent :=
  { tool := "codex", skill_key := "brainstorming", managed_skill_id := none,
    ts_ms := 1704067200000, workdir := "/tmp/w", project_path := "/tmp/w",
    log_path := "a", log_line := 1, created_at_ms := 5555 }

/-- Store for the C3 witness. -/
def storeC3 : SkillStore :=
  { events := [eventC3], cursors := [("a", 1, 5555)], skills := [] }

/-- Witness for C3: backfilling day `d` (containing the fully scanned log
`a`) succeeds, keeps the events unchanged and reports `new_events = 0`. -/
theorem c3_backfill_no_growth_witness :
    ∃ s2 stats, backfill_codex_session_days envC3 (fun _ => true) (fun _ => ["a"])
      storeC3 ["d"] = .ok (s2, stats) ∧ s2.events = storeC3.events ∧
      stats.new_events = 0 := by
  apply c3_backfill_no_growth envC3 (fun _ => true) (fun _ => ["a"]) storeC3 ["d"] ["a"]
  · rfl
  · intro p hp ls i lstr ev key hf hget hpl hcl
    have hpa : p = "a" := by simpa using hp
    subst hpa
    have hls : [some lineUse] = ls := by
      have h2 : some [some lineUse] = some ls := by
        rw [← hf]
        rfl
      exact Option.some.injEq _ _ ▸ h2
    subst hls
    match i with
    | 0 =>
      exact ⟨eventC3, List.mem_cons_self _ _, rfl, rfl, by decide⟩
    | (n + 1) =>
      rw [List.getElem?_cons_succ] at hget
      simp at hget

/-- Claim C7: the line parser yields an event only when the line is JSON that
decodes to a rollout line whose payload has `type = "function_call"` and
`name = "shell_command"`, whose JSON-encoded `arguments` string decodes to a
command and a workdir, and whose command contains a whitespace token
`use-skill` followed by a further token whose quote-trimmed form is the
event`s raw skill key.  The parser is a total `Option`-valued function, so
every structural deviation yields `none` rather than an error; in particular
(second conjunct) any line whose decoded payload type differs from
`function_call` — e.g. `function_call_output` — is never matched, whatever
the rest of the line contains. -/
theorem c7_parser_gate :
    (∀ (line : String) (ev : CodexUseSkillEvent),
      parse_rollout_line_for_use_skill line = some ev →
      ∃ (j : Json) (rl : RolloutLine) (pl : RolloutPayload) (argsRaw : String)
        (argsJ : Json) (args : ShellCommandArgs) (cmd : String),
        parseJson line = some j ∧ decodeRolloutLine j = some rl ∧
        rl.payload = some pl ∧ pl.kind = "function_call" ∧
        pl.name = some "shell_command" ∧ pl.arguments = some argsRaw ∧
        parseJson argsRaw = some argsJ ∧ decodeShellCommandArgs argsJ = some args ∧
        args.command = some cmd ∧ args.workdir = some ev.workdir ∧
        extract_skill_key_from_command cmd = some ev.skill_key ∧
        ∃ pre tok post, splitWhitespaceRust cmd = pre ++ "use-skill" :: tok :: post ∧
          "use-skill" ∉ pre ∧ ev.skill_key = trimQuoteChars tok) ∧
    (∀ (line : String) (j : Json) (rl : RolloutLine) (pl : RolloutPayload),
      parseJson line = some j → decodeRolloutLine j = some rl → rl.payload = some pl →
      pl.kind ≠ "function_call" → parse_rollout_line_for_use_skill line = none) := by
  constructor
  · intro line ev h
    unfold parse_rollout_line_for_use_skill at h
    rw [Option.bind_eq_some] at h
    obtain ⟨j, hj, h⟩ := h
    rw [Option.bind_eq_some] at h
    obtain ⟨rl, hrl, h⟩ := h
    rw [Option.bind_eq_some] at h
    obtain ⟨pl, hpl, h⟩ := h
    split at h
    · exact Option.noConfusion h
    next hkind =>
      rw [Option.bind_eq_some] at h
      obtain ⟨nm, hnm, h⟩ := h
      split at h
      · exact Option.noConfusion h
      next hnm2 =>
        rw [Option.bind_eq_some] at h
        obtain ⟨argsRaw, hargsRaw, h⟩ := h
        rw [Option.bind_eq_some] at h
        obtain ⟨argsJ, hargsJ, h⟩ := h
        rw [Option.bind_eq_some] at h
        obtain ⟨args, hargs, h⟩ := h
        rw [Option.bind_eq_some] at h
        obtain ⟨cmd, hcmd, h⟩ := h
        rw [Option.bind_eq_some] at h
        obtain ⟨skill, hskill, h⟩ := h
        rw [Option.bind_eq_some] at h
        obtain ⟨wd, hwd, h⟩ := h
        have hev := Option.some.inj h
        subst hev
        obtain ⟨pre, tok, post, hsplit, hpre, hkey⟩ :=
          extractGo_spec (splitWhitespaceRust cmd) skill hskill
        refine ⟨j, rl, pl, argsRaw, argsJ, args, cmd, hj, hrl, hpl,
          not_not.mp hkind, ?_, hargsRaw, hargsJ, hargs, hcmd, hwd, hskill,
          pre, tok, post, hsplit, hpre, hkey⟩
        rw [hnm]
        rw [not_not.mp hnm2]
  · intro line j rl pl hj hrl hpl hkind
    unfold parse_rollout_line_for_use_skill
    rw [hj, Option.some_bind, hrl, Option.some_bind, hpl, Option.some_bind,
      if_pos hkind]

/-- A rollout line whose payload type is `function_call_output` and whose
output text contains `use-skill`. -/
def lineOutput : String :=
  "\x7b\"timestamp\":\"2024-01-01T00:00:00Z\",\"payload\":\x7b\"type\":\"function_call_output\",\"output\":\"use-skill brainstorming\"\x7d\x7d"

/-- Witness for C7: the matching line satisfies every gate condition, and the
`function_call_output` line containing `use-skill` parses to nothing. -/
theorem c7_parser_gate_witness :
    (∃ (j : Json) (rl : RolloutLine) (pl : RolloutPayload) (argsRaw : String)
      (argsJ : Json) (args : ShellCommandArgs) (cmd : String),
      parseJson lineUse = some j ∧ decodeRolloutLine j = some rl ∧
      rl.payload = some pl ∧ pl.kind = "function_call" ∧
      pl.name = some "shell_command" ∧ pl.arguments = some argsRaw ∧
      parseJson argsRaw = some argsJ ∧ decodeShellCommandArgs argsJ = some args ∧
      args.command = some cmd ∧
      args.workdir = some (CodexUseSkillEvent.mk 1704067200000 "brainstorming"
        "/tmp/w").workdir ∧
      extract_skill_key_from_command cmd = some (CodexUseSkillEvent.mk 1704067200000
        "brainstorming" "/tmp/w").skill_key ∧
      ∃ pre tok post, splitWhitespaceRust cmd = pre ++ "use-skill" :: tok :: post ∧
        "use-skill" ∉ pre ∧ (CodexUseSkillEvent.mk 1704067200000 "brainstorming"
          "/tmp/w").skill_key = trimQuoteChars tok) ∧
    parse_rollout_line_for_use_skill lineOutput = none := by
  constructor
  · exact c7_parser_gate.1 lineUse
      (CodexUseSkillEvent.mk 1704067200000 "brainstorming" "/tmp/w") (by decide)
  · decide

/-- Claim C10: every event newly persisted by the per-file scan comes from a
parsed line, and its stored `ts_ms` is the parsed value only when that value
is strictly positive — otherwise it is the caller-supplied `now_ms`.  An
absent or unparseable timestamp is encoded by the parser as `ts_ms = 0`, and
a valid RFC 3339 timestamp at or before the epoch also parses to a value
`≤ 0` (the last two conjuncts evaluate the boundary instants), so both are
replaced by `now_ms` and are indistinguishable in the stored event. -/
theorem c10_ts_replacement :
    (∀ (env : ScanEnv) (m : List (String × String)) (s : SkillStore) (p : String)
      (e : StoredEvent), e ∈ (scanFile env m s p).1.events → e ∉ s.events →
      ∃ (ls : List (Option String)) (i : Nat) (lstr : String) (ev : CodexUseSkillEvent),
        env.files p = some ls ∧ ls[i]? = some (some lstr) ∧
        e.log_line = (i : Int) + 1 ∧
        parse_rollout_line_for_use_skill lstr = some ev ∧
        e.ts_ms = (if ev.ts_ms > 0 then ev.ts_ms else env.now_ms) ∧
        (ev.ts_ms ≤ 0 → e.ts_ms = env.now_ms)) ∧
    parse_timestamp_ms "1970-01-01T00:00:00Z" = some 0 ∧
    parse_timestamp_ms "1969-12-31T23:59:59.999Z" = some (-1) := by
  refine ⟨?_, by decide, by decide⟩
  intro env m s p e he hne
  rcases scanFile_events_provenance env m s p e he with
    h | ⟨ls, i, lstr, ev, h1, h2, h3, h4, h5, h6, h7, h8⟩
  · exact absurd h hne
  · refine ⟨ls, i, lstr, ev, h1, h2, h3, h4, h8, ?_⟩
    intro hle
    rw [h8, if_neg (by omega)]

/-- A rollout line whose valid RFC 3339 timestamp lies strictly before the
Unix epoch. -/
def linePreEpoch : String :=
  "\x7b\"timestamp\":\"1969-12-31T23:59:59.999Z\",\"payload\":\x7b\"type\":\"function_call\",\"name\":\"shell_command\",\"arguments\":\"\x7b\\\"command\\\":\\\"use-skill brainstorming\\\",\\\"workdir\\\":\\\"/tmp/w\\\"\x7d\"\x7d\x7d"

/-- Fixture environment for the C10 witness. -/
def envC10 : ScanEnv :=
  { files := fun p => if p = "a" then some [some linePreEpoch] else none,
    skillsFs := ["brainstorming"], now_ms := 5555, projectMode := .Workdir,
    gitRoot := fun w => w }

/-- Empty fixture store for the C10 witness. -/
def storeC10 : SkillStore := { events := [], cursors := [], skills := [] }

/-- The event the C10 scan persists: its `ts_ms` is `now_ms = 5555`, not the
parsed pre-epoch `-1`. -/
def eventC10 : StoredEvent :=
  { tool := "codex", skill_key := "brainstorming", managed_skill_id := none,
    ts_ms := 5555, workdir := "/tmp/w", project_path := "/tmp/w",
    log_path := "a", log_line := 1, created_at_ms := 5555 }

/-- Witness for C10: scanning the pre-epoch line persists the event with
`ts_ms = now_ms`. -/
theorem c10_ts_replacement_witness :
    ∃ (ls : List (Option String)) (i : Nat) (lstr : String) (ev : CodexUseSkillEvent),
      envC10.files "a" = some ls ∧ ls[i]? = some (some lstr) ∧
      eventC10.log_line = (i : Int) + 1 ∧
      parse_rollout_line_for_use_skill lstr = some ev ∧
      eventC10.ts_ms = (if ev.ts_ms > 0 then ev.ts_ms else envC10.now_ms) ∧
      (ev.ts_ms ≤ 0 → eventC10.ts_ms = envC10.now_ms) :=
  c10_ts_replacement.1 envC10 [] storeC10 "a" eventC10 (by decide) (by decide)
